import Mathlib

/-!
Verification development for the bt-rs-solar-monitor firmware core.

The Rust sources are shallowly embedded as executable Lean definitions:

* byte streams and ASCII strings are lists of byte values (List Nat, each < 256
  in practice; the checksum arithmetic is explicit mod 256);
* machine integers are Nat / Int with explicit wrapping where the source can
  wrap (wrap32 models an i32 cast);
* f32 sensor values are abstracted as exact rationals (the averaging and scaling
  code performs only +, / by a count, and * 1000, so the rational model follows
  the source operation-for-operation; rounding of f32 is the only abstraction);
* async stream reads are modelled by consuming a list; a read on an exhausted
  list is None (the real code would block), and for timeout-guarded loops an
  exhausted script models the timer firing with no further traffic;
* repository code generated at build time (the protobuf structs) is modelled
  from the spec where noted.
-/

/-- Models a Rust i64-to-i32 cast (wrapping). -/
def wrap32 (x : Int) : Int := (x + 2147483648) % 4294967296 - 2147483648

namespace VeDirect

/-- Embeds sensor::ve_direct::Reading. The five f32 fields are abstracted as
exact rationals. -/
structure Reading where
  battery_voltage : Rat
  battery_current : Rat
  panel_voltage : Rat
  panel_power : Rat
  load_current : Rat
deriving DecidableEq, Repr

/-- Rust Reading::default(): all fields zero. -/
def Reading.zero : Reading := ⟨0, 0, 0, 0, 0⟩

instance : Inhabited Reading := ⟨Reading.zero⟩

/-- Embeds sensor::ve_direct::Averaging: a running component-wise sum plus a
sample count. -/
structure Averaging where
  sum : Reading
  count : Nat
deriving DecidableEq, Repr

/-- Rust Averaging::default(). -/
def Averaging.init : Averaging := ⟨Reading.zero, 0⟩

/-- Embeds Averaging::add_reading: component-wise sum update and count + 1. -/
def add_reading (a : Averaging) (r : Reading) : Averaging :=
  { sum :=
      { battery_voltage := a.sum.battery_voltage + r.battery_voltage
        battery_current := a.sum.battery_current + r.battery_current
        panel_voltage := a.sum.panel_voltage + r.panel_voltage
        panel_power := a.sum.panel_power + r.panel_power
        load_current := a.sum.load_current + r.load_current }
    count := a.count + 1 }

/-- Embeds Averaging::average: None when count is zero, otherwise the
component-wise sum divided by the count, together with the count; both sum and
count are reset. Returns (emitted value, state after the call). -/
def average (a : Averaging) : Option (Reading × Nat) × Averaging :=
  if a.count = 0 then (none, a)
  else
    (some
      ({ battery_voltage := a.sum.battery_voltage / (a.count : Rat)
         battery_current := a.sum.battery_current / (a.count : Rat)
         panel_voltage := a.sum.panel_voltage / (a.count : Rat)
         panel_power := a.sum.panel_power / (a.count : Rat)
         load_current := a.sum.load_current / (a.count : Rat) }, a.count),
     Averaging.init)

/-- Component-wise addition of readings (specification helper). -/
def addR (x y : Reading) : Reading :=
  ⟨x.battery_voltage + y.battery_voltage, x.battery_current + y.battery_current,
   x.panel_voltage + y.panel_voltage, x.panel_power + y.panel_power,
   x.load_current + y.load_current⟩

/-- Component-wise sum of a list of readings (specification helper). -/
def sumR : List Reading → Reading
  | [] => Reading.zero
  | r :: rs => addR r (sumR rs)

/-- Component-wise arithmetic mean of a list of readings (specification
helper). -/
def meanR (rs : List Reading) : Reading :=
  let n : Rat := (rs.length : Rat)
  ⟨(sumR rs).battery_voltage / n, (sumR rs).battery_current / n,
   (sumR rs).panel_voltage / n, (sumR rs).panel_power / n,
   (sumR rs).load_current / n⟩

theorem addR_zero_left (x : Reading) : addR Reading.zero x = x := by
  cases x; simp [addR, Reading.zero]

theorem addR_assoc (x y z : Reading) : addR (addR x y) z = addR x (addR y z) := by
  cases x; cases y; cases z
  simp only [addR, Reading.mk.injEq]
  refine ⟨by ring, by ring, by ring, by ring, by ring⟩

theorem foldl_add_reading_spec (rs : List Reading) :
    ∀ s : Averaging,
      (rs.foldl add_reading s).count = s.count + rs.length ∧
      (rs.foldl add_reading s).sum = addR s.sum (sumR rs) := by
  induction rs with
  | nil => intro s; simp [sumR]; cases s with
    | mk su c => cases su; simp [addR, Reading.zero]
  | cons r rs ih =>
    intro s
    have h := ih (add_reading s r)
    constructor
    · simpa [add_reading, Nat.add_assoc, Nat.add_comm, Nat.add_left_comm] using h.1
    · have h2 := h.2
      simp only [List.foldl_cons]
      rw [h2]
      cases s with
      | mk su c =>
        cases su; cases r
        simp [add_reading, addR, sumR]
        refine ⟨by ring, by ring, by ring, by ring, by ring⟩

end VeDirect

namespace BtTime

/-!
Embeds time.rs (UtcTime). A chrono NaiveDateTime is abstracted as an Int of
UTC seconds (the source only adds and subtracts whole-second Durations to it).
The monotonic clock reading Instant::now().as_secs() is a Nat parameter: the
source truncates the monotonic instant to whole seconds.
-/

/-- Embeds UtcTime::time_sync: computes the boot anchor as the synchronized
datetime minus the seconds elapsed since boot, storing it; an equal anchor is
left unchanged (a no-op that stores the same value). -/
def time_sync (st : Option Int) (dtNow : Int) (monoSecs : Nat) : Option Int :=
  let newBoot := dtNow - (monoSecs : Int)
  match st with
  | some cur => if cur ≠ newBoot then some newBoot else some cur
  | none => some newBoot

/-- Embeds UtcTime::now: None when never synchronized, otherwise the boot
anchor plus the whole seconds elapsed since boot. -/
def now (st : Option Int) (monoSecs : Nat) : Option Int :=
  match st with
  | some boot => some (boot + (monoSecs : Int))
  | none => none

end BtTime

namespace SimCom

/-!
Embeds the HttpResponseBody byte reader of net/cellular/sim_com_a67.rs. The
repository carries two variants of the reader:

* components/bt-core (readOnceComponents below): the read length is
  min(remaining, buf.len()) and handle_http_read is called directly on that
  slice of the caller buffer;
* cmp/bt-core (readOnceCmp below): the read length is additionally capped at
  MAX_READ_BUFFER_SIZE = 1024 and goes through AtHttpReadRequest /
  AtHttpReadResponse; the response copy back into the caller buffer returns
  the full requested length because the buffer is at least as large.

A step returns (bytes reported to the caller, new reader state, the length of
the slice passed to the underlying handle_http_read, None when no underlying
command is issued).
-/

/-- MAX_READ_BUFFER_SIZE = AT_BUFFER_SIZE * MAX_RESPONSE_LINES = 256 * 4. -/
def MAX_READ_BUFFER_SIZE : Nat := 256 * 4

/-- Reader state: advertised content length and current position. -/
structure HttpBodyState where
  len : Nat
  pos : Nat
deriving DecidableEq, Repr

/-- One HttpResponseBody::read call of the components/bt-core variant. -/
def readOnceComponents (s : HttpBodyState) (bufLen : Nat) :
    Nat × HttpBodyState × Option Nat :=
  let remaining := s.len - s.pos
  if remaining = 0 then (0, s, none)
  else
    let n := min remaining bufLen
    (n, { s with pos := s.pos + n }, some n)

/-- One HttpResponseBody::read call of the cmp/bt-core variant. -/
def readOnceCmp (s : HttpBodyState) (bufLen : Nat) :
    Nat × HttpBodyState × Option Nat :=
  let remaining := s.len - s.pos
  if remaining = 0 then (0, s, none)
  else
    let requested := min remaining bufLen
    let rd := min requested MAX_READ_BUFFER_SIZE
    (rd, { s with pos := s.pos + rd }, some rd)

/-- Drives repeated read calls with the given buffer sizes until the first
call that reports 0 bytes, returning the total of the reported byte counts
before that first zero, the log of slice lengths handed to handle_http_read,
and whether a call reporting 0 was reached within the sequence. -/
def runReads (step : HttpBodyState → Nat → Nat × HttpBodyState × Option Nat) :
    HttpBodyState → List Nat → Nat × List Nat × Bool
  | _, [] => (0, [], false)
  | s, b :: bs =>
    let n := (step s b).1
    let s2 := (step s b).2.1
    let sl := (step s b).2.2
    if n = 0 then (0, sl.toList, true)
    else
      let r := runReads step s2 bs
      (n + r.1, sl.toList ++ r.2.1, r.2.2)

theorem readOnceComponents_zero (s : HttpBodyState) (b : Nat) (h : s.len - s.pos = 0) :
    readOnceComponents s b = (0, s, none) := by
  simp [readOnceComponents, h]

theorem readOnceComponents_pos (s : HttpBodyState) (b : Nat) (h : s.len - s.pos ≠ 0) :
    readOnceComponents s b =
      (min (s.len - s.pos) b, { s with pos := s.pos + min (s.len - s.pos) b },
       some (min (s.len - s.pos) b)) := by
  simp [readOnceComponents, h]

theorem readOnceCmp_zero (s : HttpBodyState) (b : Nat) (h : s.len - s.pos = 0) :
    readOnceCmp s b = (0, s, none) := by
  simp [readOnceCmp, h]

theorem readOnceCmp_pos (s : HttpBodyState) (b : Nat) (h : s.len - s.pos ≠ 0) :
    readOnceCmp s b =
      (min (min (s.len - s.pos) b) MAX_READ_BUFFER_SIZE,
       { s with pos := s.pos + min (min (s.len - s.pos) b) MAX_READ_BUFFER_SIZE },
       some (min (min (s.len - s.pos) b) MAX_READ_BUFFER_SIZE)) := by
  simp [readOnceCmp, h]

theorem runReads_components_total (bs : List Nat) :
    ∀ s : HttpBodyState, s.pos ≤ s.len → (∀ b ∈ bs, 0 < b) →
      s.len - s.pos ≤ bs.sum →
      (runReads readOnceComponents s bs).1 = s.len - s.pos := by
  induction bs with
  | nil =>
    intro s _ _ hsum
    simp only [List.sum_nil, Nat.le_zero] at hsum
    simp [runReads, hsum]
  | cons b bs ih =>
    intro s hle hpos hsum
    have hb : 0 < b := hpos b (by simp)
    by_cases hrem : s.len - s.pos = 0
    · simp [runReads, readOnceComponents_zero s b hrem, hrem]
    · have hn : min (s.len - s.pos) b ≠ 0 := by omega
      rw [List.sum_cons] at hsum
      have hrec := ih { len := s.len, pos := s.pos + min (s.len - s.pos) b }
        (by show s.pos + min (s.len - s.pos) b ≤ s.len; omega)
        (fun c hc => hpos c (by simp [hc]))
        (by show s.len - (s.pos + min (s.len - s.pos) b) ≤ bs.sum; omega)
      have hrec' : (runReads readOnceComponents
          { len := s.len, pos := s.pos + min (s.len - s.pos) b } bs).1 =
          s.len - (s.pos + min (s.len - s.pos) b) := hrec
      have hstep : (runReads readOnceComponents s (b :: bs)).1 =
          min (s.len - s.pos) b +
            (runReads readOnceComponents
              { len := s.len, pos := s.pos + min (s.len - s.pos) b } bs).1 := by
        simp [runReads, readOnceComponents_pos s b hrem, hn]
      rw [hstep, hrec']
      omega

theorem runReads_cons_pos (step : HttpBodyState → Nat → Nat × HttpBodyState × Option Nat)
    (s : HttpBodyState) (b : Nat) (bs : List Nat) (h : (step s b).1 ≠ 0) :
    runReads step s (b :: bs) =
      ((step s b).1 + (runReads step (step s b).2.1 bs).1,
       (step s b).2.2.toList ++ (runReads step (step s b).2.1 bs).2.1,
       (runReads step (step s b).2.1 bs).2.2) := by
  simp only [runReads]
  rw [if_neg h]

theorem runReads_cmp_total_of_zero (bs : List Nat) :
    ∀ s : HttpBodyState, s.pos ≤ s.len → (∀ b ∈ bs, 0 < b) →
      (runReads readOnceCmp s bs).2.2 = true →
      (runReads readOnceCmp s bs).1 = s.len - s.pos := by
  induction bs with
  | nil => intro s _ _ hz; simp [runReads] at hz
  | cons b bs ih =>
    intro s hle hpos hz
    have hb : 0 < b := hpos b (by simp)
    by_cases hrem : s.len - s.pos = 0
    · simp [runReads, readOnceCmp_zero s b hrem, hrem]
    · have hM : MAX_READ_BUFFER_SIZE = 1024 := by norm_num [MAX_READ_BUFFER_SIZE]
      have hn1 : (readOnceCmp s b).1 = min (min (s.len - s.pos) b) MAX_READ_BUFFER_SIZE := by
        rw [readOnceCmp_pos s b hrem]
      have hs2 : (readOnceCmp s b).2.1 =
          { len := s.len,
            pos := s.pos + min (min (s.len - s.pos) b) MAX_READ_BUFFER_SIZE } := by
        rw [readOnceCmp_pos s b hrem]
      have hcond : (readOnceCmp s b).1 ≠ 0 := by
        rw [hn1, hM]; omega
      rw [runReads_cons_pos readOnceCmp s b bs hcond] at hz ⊢
      have hz2 : (runReads readOnceCmp ((readOnceCmp s b).2.1) bs).2.2 = true := hz
      rw [hs2] at hz2
      have hrec := ih
        { len := s.len, pos := s.pos + min (min (s.len - s.pos) b) MAX_READ_BUFFER_SIZE }
        (by show s.pos + min (min (s.len - s.pos) b) MAX_READ_BUFFER_SIZE ≤ s.len
            rw [hM]; omega)
        (fun c hc => hpos c (by simp [hc])) hz2
      have hrec' : (runReads readOnceCmp
          { len := s.len,
            pos := s.pos + min (min (s.len - s.pos) b) MAX_READ_BUFFER_SIZE } bs).1 =
          s.len - (s.pos + min (min (s.len - s.pos) b) MAX_READ_BUFFER_SIZE) := hrec
      show (readOnceCmp s b).1 + (runReads readOnceCmp ((readOnceCmp s b).2.1) bs).1 =
        s.len - s.pos
      rw [hn1, hs2, hrec']
      rw [hM] at *
      omega

theorem runReads_cmp_capped (bs : List Nat) :
    ∀ s : HttpBodyState, ∀ x ∈ (runReads readOnceCmp s bs).2.1, x ≤ MAX_READ_BUFFER_SIZE := by
  induction bs with
  | nil => intro s x hx; simp [runReads] at hx
  | cons b bs ih =>
    intro s x hx
    have hM : MAX_READ_BUFFER_SIZE = 1024 := by norm_num [MAX_READ_BUFFER_SIZE]
    by_cases hrem : s.len - s.pos = 0
    · simp [runReads, readOnceCmp_zero s b hrem] at hx
    · have hn1 : (readOnceCmp s b).1 = min (min (s.len - s.pos) b) MAX_READ_BUFFER_SIZE := by
        rw [readOnceCmp_pos s b hrem]
      by_cases hcond : (readOnceCmp s b).1 = 0
      · have hsl : (readOnceCmp s b).2.2 =
            some (min (min (s.len - s.pos) b) MAX_READ_BUFFER_SIZE) := by
          rw [readOnceCmp_pos s b hrem]
        simp only [runReads, hcond, ite_true] at hx
        rw [hsl] at hx
        simp at hx
        rw [hx, hM]; omega
      · rw [runReads_cons_pos readOnceCmp s b bs hcond] at hx
        have hx2 : x ∈ (readOnceCmp s b).2.2.toList ++
            (runReads readOnceCmp ((readOnceCmp s b).2.1) bs).2.1 := hx
        rw [List.mem_append] at hx2
        rcases hx2 with hx2 | hx2
        · have hsl : (readOnceCmp s b).2.2 =
              some (min (min (s.len - s.pos) b) MAX_READ_BUFFER_SIZE) := by
            rw [readOnceCmp_pos s b hrem]
          rw [hsl] at hx2
          simp at hx2
          rw [hx2, hM]; omega
        · exact ih _ x hx2

end SimCom

/-!
Byte-level embedding of the nom parser combinators used by
cmp/bt-core/src/at/status_control.rs. An ASCII &str is a List Nat of byte
values. The nom integer parsers consume a greedy run of decimal digits (with
an optional leading sign for the signed variant) and fail on empty runs or
values outside the machine-integer range.
-/

/-- nom is_digit on an ASCII byte. -/
def isDigitB (b : Nat) : Bool := 48 ≤ b && b ≤ 57

/-- Splits off the longest leading run of decimal-digit bytes. -/
def takeDigits : List Nat → List Nat × List Nat
  | [] => ([], [])
  | b :: r =>
    if isDigitB b then
      let p := takeDigits r
      (b :: p.1, p.2)
    else ([], b :: r)

/-- Decimal value of a digit-byte run. -/
def digitsVal (ds : List Nat) : Nat := ds.foldl (fun a b => a * 10 + (b - 48)) 0

/-- Embeds nom::character::complete::u32: a nonempty digit run whose value
fits in a u32. -/
def parseU32 (cs : List Nat) : Option (Nat × List Nat) :=
  let p := takeDigits cs
  if p.1 = [] then none
  else if digitsVal p.1 < 4294967296 then some (digitsVal p.1, p.2) else none

/-- Digit-and-bound step of nom::character::complete::i32 after the optional
sign has been consumed. -/
def parseI32core (pos : Bool) (cs : List Nat) : Option (Int × List Nat) :=
  let p := takeDigits cs
  if p.1 = [] then none
  else
    let v := digitsVal p.1
    if pos then if v ≤ 2147483647 then some ((v : Int), p.2) else none
    else if v ≤ 2147483648 then some (-(v : Int), p.2) else none

/-- Embeds nom::character::complete::i32: optional sign, then digits, with the
i32 range check. -/
def parseI32 (cs : List Nat) : Option (Int × List Nat) :=
  match cs with
  | [] => none
  | b :: rest =>
    if b = 43 then parseI32core true rest
    else if b = 45 then parseI32core false rest
    else parseI32core true (b :: rest)

/-- Embeds nom::bytes::complete::tag: the literal must be a prefix of the
input; the remainder after it is returned. -/
def parseTag (t : List Nat) (cs : List Nat) : Option (List Nat) :=
  if t.isPrefixOf cs then some (cs.drop t.length) else none

/-- The byte after a fixed-width numeric field must not be a digit, so the
greedy digit run stops exactly at the field boundary. -/
def headNotDigit : List Nat → Prop
  | [] => True
  | b :: _ => isDigitB b = false

/-- Two-digit zero-padded decimal rendering, the field format of the modem
RTC string. -/
def render2 (n : Nat) : List Nat := [48 + n / 10, 48 + n % 10]

theorem takeDigits_all_append (ds r : List Nat) (h1 : ∀ b ∈ ds, isDigitB b = true)
    (h2 : headNotDigit r) : takeDigits (ds ++ r) = (ds, r) := by
  induction ds with
  | nil =>
    cases r with
    | nil => rfl
    | cons b rest =>
      simp only [headNotDigit] at h2
      simp [takeDigits, h2]
  | cons d ds ih =>
    have hd : isDigitB d = true := h1 d (by simp)
    have ih' := ih (fun b hb => h1 b (by simp [hb]))
    simp only [List.cons_append, takeDigits, hd, ite_true, List.append_eq, ih']

theorem render2_digits (n : Nat) (h : n < 100) : ∀ b ∈ render2 n, isDigitB b = true := by
  intro b hb
  simp only [render2, List.mem_cons, List.mem_singleton, List.not_mem_nil, or_false] at hb
  rcases hb with hb | hb <;> subst hb <;> simp [isDigitB] <;> omega

theorem digitsVal_render2 (n : Nat) (h : n < 100) : digitsVal (render2 n) = n := by
  simp [digitsVal, render2]
  omega

theorem parseU32_render2 (n : Nat) (h : n < 100) (r : List Nat) (h2 : headNotDigit r) :
    parseU32 (render2 n ++ r) = some (n, r) := by
  unfold parseU32
  rw [takeDigits_all_append (render2 n) r (render2_digits n h) h2]
  show (if render2 n = ([] : List Nat) then none
    else if digitsVal (render2 n) < 4294967296 then some (digitsVal (render2 n), r)
    else none) = some (n, r)
  rw [digitsVal_render2 n h]
  rw [if_neg (by simp [render2]), if_pos (by omega)]

theorem parseI32_render2 (n : Nat) (h : n < 100) (r : List Nat) (h2 : headNotDigit r) :
    parseI32 (render2 n ++ r) = some ((n : Int), r) := by
  have hhead : render2 n ++ r = (48 + n / 10) :: ((48 + n % 10) :: r) := by
    simp [render2]
  rw [hhead]
  have h43 : ¬ (48 + n / 10 = 43) := by omega
  have h45 : ¬ (48 + n / 10 = 45) := by omega
  simp only [parseI32, h43, h45, ite_false]
  have hback : (48 + n / 10) :: ((48 + n % 10) :: r) = render2 n ++ r := hhead.symm
  rw [hback]
  unfold parseI32core
  rw [takeDigits_all_append (render2 n) r (render2_digits n h) h2]
  show (if render2 n = ([] : List Nat) then none
    else if digitsVal (render2 n) ≤ 2147483647 then some (((digitsVal (render2 n)) : Int), r)
    else none) = some ((n : Int), r)
  rw [digitsVal_render2 n h]
  rw [if_neg (by simp [render2]), if_pos (by omega)]

theorem parseTag_single (a : Nat) (rest : List Nat) : parseTag [a] (a :: rest) = some rest := by
  simp [parseTag, List.isPrefixOf]

theorem parseU32_render2_nil (n : Nat) (h : n < 100) :
    parseU32 (render2 n) = some (n, []) := by
  have h2 := parseU32_render2 n h [] trivial
  simpa using h2

/-- Embeds at::AtError. The string payloads are byte lists. -/
inductive AtError where
  | timeout
  | formatError
  | capacityError
  | enumParseError (msg : List Nat)
  | responseLineCountMismatch (expected actual : Nat)
  | error
deriving DecidableEq, Repr

namespace StatusControl

/-!
Embeds cmp/bt-core/src/at/status_control.rs. Each query function here takes
the first response line directly (the AT transport that produces the line is
embedded separately); parse failures map to AtError::Error through the
From<nom::Err> conversion, exactly as the ? operator does in the source.
-/

/-- Bytes of the "+CSQ: " tag. -/
def CSQ_TAG : List Nat := [43, 67, 83, 81, 58, 32]

/-- Bytes of the fixed unknown-signal message text. -/
def csqUnknownMsg : List Nat :=
  [83, 105, 103, 110, 97, 108, 32, 115, 116, 114, 101, 110, 103, 116, 104, 32, 110, 111,
   116, 32, 107, 110, 111, 119, 110, 32, 111, 114, 32, 110, 111, 116, 32, 100, 101, 116,
   101, 99, 116, 97, 98, 108, 101]

/-- Bytes of the "Invalid RSSI value: " message stem. -/
def invalidRssiMsgStem : List Nat :=
  [73, 110, 118, 97, 108, 105, 100, 32, 82, 83, 83, 73, 32, 118, 97, 108, 117, 101, 58, 32]

/-- Decimal digit rendering of a Nat (fuel-structured division loop). -/
def renderNatAux : Nat → Nat → List Nat → List Nat
  | 0, _, acc => acc
  | fuel + 1, n, acc => if n = 0 then acc else renderNatAux fuel (n / 10) ((48 + n % 10) :: acc)

/-- Decimal rendering of a Nat. -/
def renderNat (n : Nat) : List Nat := if n = 0 then [48] else renderNatAux n n []

/-- Decimal rendering of an Int as the i32 Display implementation prints it. -/
def renderInt (v : Int) : List Nat :=
  if v < 0 then 45 :: renderNat v.natAbs else renderNat v.toNat

/-- The tuple parser (tag "+CSQ: ", i32, tag ",", u32) of
query_signal_quality. -/
def parseCsq (cs : List Nat) : Option ((Int × Nat) × List Nat) :=
  (parseTag CSQ_TAG cs).bind fun c1 =>
  (parseI32 c1).bind fun p1 =>
  (parseTag [44] p1.2).bind fun c3 =>
  (parseU32 c3).map fun p2 => ((p1.1, p2.1), p2.2)

/-- Embeds query_signal_quality applied to the +CSQ response line: raw rssi
0..=31 maps to -113 + rssi * 2 dBm, 99 and every other raw value map to
EnumParseError (with distinct message texts). -/
def query_signal_quality (line : List Nat) : Except AtError (Int × Nat) :=
  match parseCsq line with
  | none => .error .error
  | some ((rawRssi, rawBer), _) =>
    if 0 ≤ rawRssi ∧ rawRssi ≤ 31 then .ok (-113 + rawRssi * 2, rawBer)
    else if rawRssi = 99 then .error (.enumParseError csqUnknownMsg)
    else .error (.enumParseError (invalidRssiMsgStem ++ renderInt rawRssi))

/-- chrono NaiveDate, restricted to the fields the source reads. -/
structure DateM where
  year : Int
  month : Nat
  day : Nat
deriving DecidableEq, Repr

/-- chrono NaiveDateTime: a date plus a time of day in whole seconds (the
source only constructs and shifts whole-second times). -/
structure DateTimeM where
  date : DateM
  time : Nat
deriving DecidableEq, Repr

/-- chrono leap-year rule. -/
def isLeap (y : Int) : Bool := decide (y % 4 = 0 ∧ (y % 100 ≠ 0 ∨ y % 400 = 0))

/-- Days in a month of the proleptic Gregorian calendar. -/
def daysInMonth (y : Int) (m : Nat) : Nat :=
  match m with
  | 1 => 31 | 3 => 31 | 5 => 31 | 7 => 31 | 8 => 31 | 10 => 31 | 12 => 31
  | 4 => 30 | 6 => 30 | 9 => 30 | 11 => 30
  | 2 => if isLeap y then 29 else 28
  | _ => 0

/-- chrono NaiveDate::from_ymd_opt validity (the ±262143 year cap of chrono is
not modelled; the parsed years here are 2000..2099, far inside it). -/
def mkDateOpt (y : Int) (m d : Nat) : Option DateM :=
  if 1 ≤ m ∧ m ≤ 12 ∧ 1 ≤ d ∧ d ≤ daysInMonth y m then some ⟨y, m, d⟩ else none

/-- chrono NaiveTime::from_hms_opt as seconds of day. -/
def mkTimeOpt (h mi s : Nat) : Option Nat :=
  if h < 24 ∧ mi < 60 ∧ s < 60 then some (h * 3600 + mi * 60 + s) else none

/-- chrono NaiveTime minus a Duration: wraps around midnight, never touching
the date. -/
def timeSub (t : Nat) (off : Int) : Nat := (((t : Int) - off) % 86400).toNat

/-- chrono NaiveTime plus a Duration: wraps around midnight, never touching
the date. -/
def timeAdd (t : Nat) (off : Int) : Nat := (((t : Int) + off) % 86400).toNat

/-- The sign alternative alt((tag "+", tag "-")); true is '+'. -/
def parseSign (cs : List Nat) : Option (Bool × List Nat) :=
  match cs with
  | [] => none
  | b :: rest =>
    if b = 43 then some (true, rest)
    else if b = 45 then some (false, rest)
    else none

/-- Embeds parse_rtc_date: i32 year, "/", u32 month, "/", u32 day, then
NaiveDate::from_ymd_opt(year + 2000, month, day); the year + 2000 addition is
an i32 addition, hence the wrap. -/
def parse_rtc_date (cs : List Nat) : Option (DateM × List Nat) :=
  (parseI32 cs).bind fun p1 =>
  (parseTag [47] p1.2).bind fun c2 =>
  (parseU32 c2).bind fun p2 =>
  (parseTag [47] p2.2).bind fun c4 =>
  (parseU32 c4).bind fun p3 =>
  (mkDateOpt (wrap32 (p1.1 + 2000)) p2.1 p3.1).map fun date => (date, p3.2)

/-- Embeds parse_rtc_time: u32 hour, ":", u32 minute, ":", u32 second, a sign,
and a u32 quarter-hour count; the offset is Duration::minutes(15 * tz) with
the u32 multiplication wrapping, '+' subtracts it from the local time and '-'
adds it, both wrapping around midnight. -/
def parse_rtc_time (cs : List Nat) : Option (Nat × List Nat) :=
  (parseU32 cs).bind fun ph =>
  (parseTag [58] ph.2).bind fun c2 =>
  (parseU32 c2).bind fun pm =>
  (parseTag [58] pm.2).bind fun c4 =>
  (parseU32 c4).bind fun ps =>
  (parseSign ps.2).bind fun psign =>
  (parseU32 psign.2).bind fun ptz =>
  (mkTimeOpt ph.1 pm.1 ps.1).map fun localT =>
    let offMinutes : Int := (((15 * ptz.1) % 4294967296 : Nat) : Int)
    let offSeconds := offMinutes * 60
    (if psign.1 then timeSub localT offSeconds else timeAdd localT offSeconds, ptz.2)

/-- Embeds parse_rtc_date_time: date, ",", time; the date is combined with
the already offset-adjusted time. -/
def parse_rtc_date_time (cs : List Nat) : Option (DateTimeM × List Nat) :=
  (parse_rtc_date cs).bind fun pd =>
  (parseTag [44] pd.2).bind fun c2 =>
  (parse_rtc_time c2).map fun pt => (⟨pd.1, pt.1⟩, pt.2)

/-- Days from the Unix epoch of a civil date (specification helper for the
true UTC instant). -/
def epochDays (d : DateM) : Int :=
  let y := if d.month ≤ 2 then d.year - 1 else d.year
  let era := Int.fdiv y 400
  let yoe := y - era * 400
  let mp : Int := ((d.month : Int) + 9) % 12
  let doy := (153 * mp + 2) / 5 + (d.day : Int) - 1
  let doe := yoe * 365 + yoe / 4 - yoe / 100 + doy
  era * 146097 + doe - 719468

/-- Seconds from the Unix epoch of a parsed datetime (specification helper). -/
def epochSecs (dt : DateTimeM) : Int := epochDays dt.date * 86400 + (dt.time : Int)

/-- Bytes of the RTC response payload string of the epoch round-trip law. -/
def rtc70 : List Nat :=
  [55, 48, 47, 48, 49, 47, 48, 49, 44, 48, 48, 58, 48, 48, 58, 49, 48, 43, 48, 48]

/-- The fully rendered RTC payload string YY/MM/DD,HH:MM:SS±TZ with two-digit
zero-padded fields. -/
def renderRtc (yy mm dd h mi s : Nat) (sign : Bool) (tz : Nat) : List Nat :=
  render2 yy ++ [47] ++ render2 mm ++ [47] ++ render2 dd ++ [44] ++ render2 h ++ [58] ++
    render2 mi ++ [58] ++ render2 s ++ [if sign then 43 else 45] ++ render2 tz

theorem parse_rtc_date_render (yy mm dd : Nat) (rest : List Nat) (date : DateM)
    (hyy : yy < 100) (hmm2 : mm < 100) (hdd : dd < 100) (hrest : headNotDigit rest)
    (hdate : mkDateOpt (wrap32 ((yy : Int) + 2000)) mm dd = some date) :
    parse_rtc_date (render2 yy ++ [47] ++ render2 mm ++ [47] ++ render2 dd ++ rest) =
      some (date, rest) := by
  unfold parse_rtc_date
  have e1 : render2 yy ++ [47] ++ render2 mm ++ [47] ++ render2 dd ++ rest =
      render2 yy ++ (47 :: (render2 mm ++ (47 :: (render2 dd ++ rest)))) := by
    simp [List.append_assoc]
  rw [e1]
  rw [parseI32_render2 yy hyy _ (by exact (by decide : isDigitB 47 = false))]
  simp only [Option.bind]
  rw [parseTag_single]
  simp only [Option.bind]
  rw [parseU32_render2 mm hmm2 _ (by exact (by decide : isDigitB 47 = false))]
  simp only [Option.bind]
  rw [parseTag_single]
  simp only [Option.bind]
  rw [parseU32_render2 dd hdd _ hrest]
  simp only [Option.bind]
  rw [hdate]
  rfl

theorem parse_rtc_time_render (h mi s tz : Nat) (sign : Bool) (localT : Nat)
    (hh : h < 100) (hmi : mi < 100) (hs : s < 100) (htz : tz < 100)
    (htime : mkTimeOpt h mi s = some localT) :
    parse_rtc_time (render2 h ++ [58] ++ render2 mi ++ [58] ++ render2 s ++
        [if sign then 43 else 45] ++ render2 tz) =
      some ((if sign then timeSub localT ((((15 * tz) % 4294967296 : Nat) : Int) * 60)
             else timeAdd localT ((((15 * tz) % 4294967296 : Nat) : Int) * 60)), []) := by
  unfold parse_rtc_time
  cases sign with
  | false =>
    have e1 : render2 h ++ [58] ++ render2 mi ++ [58] ++ render2 s ++
        [if (false : Bool) then 43 else 45] ++ render2 tz =
        render2 h ++ (58 :: (render2 mi ++ (58 :: (render2 s ++
          (45 :: render2 tz))))) := by
      simp [List.append_assoc]
    rw [e1]
    rw [parseU32_render2 h hh _ (by exact (by decide : isDigitB 58 = false))]
    simp only [Option.bind]
    rw [parseTag_single]
    simp only [Option.bind]
    rw [parseU32_render2 mi hmi _ (by exact (by decide : isDigitB 58 = false))]
    simp only [Option.bind]
    rw [parseTag_single]
    simp only [Option.bind]
    rw [parseU32_render2 s hs _ (by exact (by decide : isDigitB 45 = false))]
    simp only [Option.bind]
    rw [show parseSign (45 :: render2 tz) = some (false, render2 tz) by simp [parseSign]]
    simp only [Option.bind]
    rw [parseU32_render2_nil tz htz]
    simp only [Option.bind]
    rw [htime]
    rfl
  | true =>
    have e1 : render2 h ++ [58] ++ render2 mi ++ [58] ++ render2 s ++
        [if (true : Bool) then 43 else 45] ++ render2 tz =
        render2 h ++ (58 :: (render2 mi ++ (58 :: (render2 s ++
          (43 :: render2 tz))))) := by
      simp [List.append_assoc]
    rw [e1]
    rw [parseU32_render2 h hh _ (by exact (by decide : isDigitB 58 = false))]
    simp only [Option.bind]
    rw [parseTag_single]
    simp only [Option.bind]
    rw [parseU32_render2 mi hmi _ (by exact (by decide : isDigitB 58 = false))]
    simp only [Option.bind]
    rw [parseTag_single]
    simp only [Option.bind]
    rw [parseU32_render2 s hs _ (by exact (by decide : isDigitB 43 = false))]
    simp only [Option.bind]
    rw [show parseSign (43 :: render2 tz) = some (true, render2 tz) by simp [parseSign]]
    simp only [Option.bind]
    rw [parseU32_render2_nil tz htz]
    simp only [Option.bind]
    rw [htime]
    rfl

theorem parse_rtc_date_time_render (yy mm dd h mi s tz : Nat) (sign : Bool)
    (date : DateM) (localT : Nat)
    (hyy : yy < 100) (hmm2 : mm < 100) (hdd : dd < 100) (hh : h < 100) (hmi : mi < 100)
    (hs : s < 100) (htz : tz < 100)
    (hdate : mkDateOpt (wrap32 ((yy : Int) + 2000)) mm dd = some date)
    (htime : mkTimeOpt h mi s = some localT) :
    parse_rtc_date_time (renderRtc yy mm dd h mi s sign tz) =
      some (⟨date, if sign then timeSub localT ((((15 * tz) % 4294967296 : Nat) : Int) * 60)
                   else timeAdd localT ((((15 * tz) % 4294967296 : Nat) : Int) * 60)⟩, []) := by
  unfold parse_rtc_date_time renderRtc
  have e1 : render2 yy ++ [47] ++ render2 mm ++ [47] ++ render2 dd ++ [44] ++ render2 h ++
      [58] ++ render2 mi ++ [58] ++ render2 s ++ [if sign then 43 else 45] ++ render2 tz =
      (render2 yy ++ [47] ++ render2 mm ++ [47] ++ render2 dd) ++
        (44 :: (render2 h ++ [58] ++ render2 mi ++ [58] ++ render2 s ++
          [if sign then 43 else 45] ++ render2 tz)) := by
    simp [List.append_assoc]
  rw [e1]
  have e2 : (render2 yy ++ [47] ++ render2 mm ++ [47] ++ render2 dd) ++
      (44 :: (render2 h ++ [58] ++ render2 mi ++ [58] ++ render2 s ++
        [if sign then 43 else 45] ++ render2 tz)) =
      render2 yy ++ [47] ++ render2 mm ++ [47] ++ render2 dd ++
        (44 :: (render2 h ++ [58] ++ render2 mi ++ [58] ++ render2 s ++
          [if sign then 43 else 45] ++ render2 tz)) := by
    simp [List.append_assoc]
  rw [e2]
  rw [parse_rtc_date_render yy mm dd _ date hyy hmm2 hdd
    (by exact (by decide : isDigitB 44 = false)) hdate]
  simp only [Option.bind]
  rw [parseTag_single]
  simp only [Option.bind]
  rw [parse_rtc_time_render h mi s tz sign localT hh hmi hs htz htime]
  rfl

end StatusControl

/-- Claim C7: for every averaging accumulator state (reached by adding the
readings rs to a fresh accumulator), average() returns None exactly when the
sample count is 0; when the count is n greater than 0 it returns the
component-wise arithmetic mean of the n added readings together with n, and
the call resets the state so that an immediately following average() returns
None. -/
theorem VeDirect.average_spec (rs : List VeDirect.Reading) :
    ((VeDirect.average (rs.foldl VeDirect.add_reading VeDirect.Averaging.init)).1 = none ↔
      rs = []) ∧
    (rs ≠ [] →
      (VeDirect.average (rs.foldl VeDirect.add_reading VeDirect.Averaging.init)).1 =
        some (VeDirect.meanR rs, rs.length)) ∧
    (VeDirect.average
      (VeDirect.average (rs.foldl VeDirect.add_reading VeDirect.Averaging.init)).2).1 = none := by
  obtain ⟨hc, hs⟩ := VeDirect.foldl_add_reading_spec rs VeDirect.Averaging.init
  have hcount : (rs.foldl VeDirect.add_reading VeDirect.Averaging.init).count = rs.length := by
    rw [hc]; simp [VeDirect.Averaging.init]
  have hsum : (rs.foldl VeDirect.add_reading VeDirect.Averaging.init).sum = VeDirect.sumR rs := by
    rw [hs]
    show VeDirect.addR VeDirect.Reading.zero (VeDirect.sumR rs) = VeDirect.sumR rs
    exact VeDirect.addR_zero_left _
  by_cases hrs : rs = []
  · subst hrs
    simp [VeDirect.average, VeDirect.Averaging.init]
  · have hne : (rs.foldl VeDirect.add_reading VeDirect.Averaging.init).count ≠ 0 := by
      rw [hcount]
      simpa using fun h => hrs (List.eq_nil_of_length_eq_zero h)
    have hafter : (VeDirect.average (rs.foldl VeDirect.add_reading VeDirect.Averaging.init)).2 =
        VeDirect.Averaging.init := by
      simp [VeDirect.average, hne]
    refine ⟨?_, fun _ => ?_, ?_⟩
    · simp [VeDirect.average, hne, hrs]
    · simp only [VeDirect.average, hne, if_neg, ite_false]
      rw [hsum, hcount]
      rfl
    · rw [hafter]
      simp [VeDirect.average, VeDirect.Averaging.init]

/-- Claim C7 witness: the two example readings average component-wise to
(12, 1, 20, 51, 1/2) with sample count 2. -/
theorem VeDirect.average_spec_witness :
    (VeDirect.average
      ([⟨12, 1, 22, 50, (4 : Rat)/5⟩, ⟨12, 1, 18, 52, (1 : Rat)/5⟩].foldl
        VeDirect.add_reading VeDirect.Averaging.init)).1 =
      some (⟨12, 1, 20, 51, (1 : Rat)/2⟩, 2) := by
  have h := (VeDirect.average_spec
    [⟨12, 1, 22, 50, (4 : Rat)/5⟩, ⟨12, 1, 18, 52, (1 : Rat)/5⟩]).2.1 (by simp)
  rw [h]
  simp only [VeDirect.meanR, VeDirect.sumR, VeDirect.addR, VeDirect.Reading.zero,
    Option.some.injEq, Prod.mk.injEq, VeDirect.Reading.mk.injEq, List.length_cons,
    List.length_nil]
  norm_num

/-- Claim C6 (counterexample): after a sync, two successive now() calls made
within the same monotonic second return the same value, so the sequence of
values returned by successive now() calls is not strictly increasing. -/
theorem BtTime.now_not_strictly_increasing :
    BtTime.now (BtTime.time_sync none 1000 0) 5 = some 1005 ∧
    BtTime.now (BtTime.time_sync none 1000 0) 5 = some 1005 ∧
    ¬ ((1005 : Int) < 1005) := by decide

/-- Claim C6 (amended): now() returns None before the first sync; after a sync
at monotonic second mSync to datetime dtNow, now() at monotonic second m
returns some (dtNow - mSync + m), the boot anchor plus the monotonic elapsed
seconds; between two resynchronizations the values returned by successive
now() calls are non-decreasing, and strictly increasing whenever the
monotonic whole-second count has strictly advanced. -/
theorem BtTime.utc_time_spec (st : Option Int) (b dtNow : Int) (mSync m m1 m2 : Nat) :
    BtTime.now none m = none ∧
    BtTime.now (BtTime.time_sync st dtNow mSync) m = some (dtNow - (mSync : Int) + m) ∧
    (m1 ≤ m2 → ∀ v1 v2, BtTime.now (some b) m1 = some v1 →
      BtTime.now (some b) m2 = some v2 → v1 ≤ v2) ∧
    (m1 < m2 → ∀ v1 v2, BtTime.now (some b) m1 = some v1 →
      BtTime.now (some b) m2 = some v2 → v1 < v2) := by
  refine ⟨rfl, ?_, ?_, ?_⟩
  · cases st with
    | none => rfl
    | some cur =>
      by_cases hc : cur ≠ dtNow - (mSync : Int)
      · simp [BtTime.time_sync, BtTime.now, hc]
      · push_neg at hc
        simp [BtTime.time_sync, BtTime.now, hc]
  · intro hm v1 v2 h1 h2
    simp [BtTime.now] at h1 h2
    omega
  · intro hm v1 v2 h1 h2
    simp [BtTime.now] at h1 h2
    omega

/-- Claim C6 witness: concrete instantiation of the amended wall-clock
specification. -/
theorem BtTime.utc_time_spec_witness :
    BtTime.now (BtTime.time_sync none 1000 2) 7 = some 1005 ∧ ((1001 : Int) < 1002) := by
  constructor
  · have h := (BtTime.utc_time_spec none 998 1000 2 7 3 4).2.1
    simpa using h
  · exact (BtTime.utc_time_spec none 998 1000 2 7 3 4).2.2.2 (by norm_num) 1001 1002
      (by norm_num [BtTime.now]) (by norm_num [BtTime.now])

/-- Claim C3 (counterexample): for a response body of advertised length 2000,
a single read call with a 2000-byte buffer in the components implementation
issues the underlying handle_http_read on a 2000-byte slice, which exceeds
MAX_READ_BUFFER_SIZE = 1024. -/
theorem SimCom.http_read_uncapped_counterexample :
    SimCom.readOnceComponents ⟨2000, 0⟩ 2000 = (2000, ⟨2000, 2000⟩, some 2000) ∧
    ¬ (2000 ≤ SimCom.MAX_READ_BUFFER_SIZE) := by decide

/-- Claim C3 (amended): over any sequence of read calls with nonempty buffers
on a body of advertised content length L, the total number of bytes returned
before the reader first returns 0 equals L: in the components implementation
whenever the buffers have total capacity at least L, and in the cmp
implementation whenever the zero return is reached; every underlying
handle_http_read call of the cmp implementation is issued on a slice of
length at most MAX_READ_BUFFER_SIZE (1024 bytes), while the components
implementation issues slices of length min(remaining, buffer length),
unbounded by 1024. -/
theorem SimCom.http_read_spec (L : Nat) (bs : List Nat) (hb : ∀ b ∈ bs, 0 < b) :
    (L ≤ bs.sum → (SimCom.runReads SimCom.readOnceComponents ⟨L, 0⟩ bs).1 = L) ∧
    ((SimCom.runReads SimCom.readOnceCmp ⟨L, 0⟩ bs).2.2 = true →
      (SimCom.runReads SimCom.readOnceCmp ⟨L, 0⟩ bs).1 = L) ∧
    (∀ x ∈ (SimCom.runReads SimCom.readOnceCmp ⟨L, 0⟩ bs).2.1,
      x ≤ SimCom.MAX_READ_BUFFER_SIZE) := by
  refine ⟨fun hs => ?_, fun hz => ?_, fun x hx => SimCom.runReads_cmp_capped bs _ x hx⟩
  · have h := SimCom.runReads_components_total bs ⟨L, 0⟩ (by simp) hb (by simpa using hs)
    simpa using h
  · have h := SimCom.runReads_cmp_total_of_zero bs ⟨L, 0⟩ (by simp) hb hz
    simpa using h

/-- Claim C3 witness: a 93-byte body read through 1024-byte buffers yields 93
total bytes in both implementations. -/
theorem SimCom.http_read_spec_witness :
    (SimCom.runReads SimCom.readOnceComponents ⟨93, 0⟩ [1024, 1024]).1 = 93 ∧
    (SimCom.runReads SimCom.readOnceCmp ⟨93, 0⟩ [1024, 1024]).1 = 93 := by
  have h := SimCom.http_read_spec 93 [1024, 1024] (by decide)
  exact ⟨h.1 (by decide), h.2.1 (by decide)⟩

/-- Claim C9: for every raw CSQ rssi value v parsed from the +CSQ response
line: 0 <= v <= 31 yields Ok with dBm value -113 + 2*v; v = 99 yields
EnumParseError; and every other value also yields EnumParseError. -/
theorem StatusControl.query_signal_quality_spec (line : List Nat) (v : Int) (ber : Nat)
    (rest : List Nat) (h : StatusControl.parseCsq line = some ((v, ber), rest)) :
    (0 ≤ v ∧ v ≤ 31 →
      StatusControl.query_signal_quality line = .ok (-113 + v * 2, ber)) ∧
    (v = 99 → ∃ msg,
      StatusControl.query_signal_quality line = .error (.enumParseError msg)) ∧
    (¬ (0 ≤ v ∧ v ≤ 31) → v ≠ 99 → ∃ msg,
      StatusControl.query_signal_quality line = .error (.enumParseError msg)) := by
  refine ⟨fun hv => ?_, fun hv => ?_, fun hv hne => ?_⟩
  · simp [StatusControl.query_signal_quality, h, hv.1, hv.2]
  · subst hv
    refine ⟨StatusControl.csqUnknownMsg, ?_⟩
    have hc : ¬ ((0 : Int) ≤ 99 ∧ (99 : Int) ≤ 31) := by norm_num
    simp [StatusControl.query_signal_quality, h, hc]
  · refine ⟨StatusControl.invalidRssiMsgStem ++ StatusControl.renderInt v, ?_⟩
    simp [StatusControl.query_signal_quality, h, hv, hne]

/-- Claim C9 witness: the line +CSQ: 15,99 yields Ok with -83 dBm. -/
theorem StatusControl.query_signal_quality_spec_witness :
    StatusControl.query_signal_quality [43, 67, 83, 81, 58, 32, 49, 53, 44, 57, 57] =
      .ok (-83, 99) := by
  have h := (StatusControl.query_signal_quality_spec
    [43, 67, 83, 81, 58, 32, 49, 53, 44, 57, 57] 15 99 [] (by rfl)).1 (by norm_num)
  rw [h]
  norm_num

/-- Claim C5 (counterexample): parsing the RTC string 70/01/01,00:00:10+00
yields the datetime 2070-01-01T00:00:10 (two-digit year mapped to 2000+70),
not the claimed 1970-01-01T00:00:10. -/
theorem StatusControl.parse_rtc_epoch_counterexample :
    StatusControl.parse_rtc_date_time StatusControl.rtc70 =
      some (⟨⟨2070, 1, 1⟩, 10⟩, []) ∧
    (⟨⟨2070, 1, 1⟩, 10⟩ : StatusControl.DateTimeM) ≠ ⟨⟨1970, 1, 1⟩, 10⟩ := by
  refine ⟨rfl, by decide⟩

/-- Claim C5 (amended): parsing the RTC response string 70/01/01,00:00:10+00
with the real-time-clock parser yields the datetime 2070-01-01T00:00:10, the
two-digit year YY being interpreted as 2000+YY. -/
theorem StatusControl.parse_rtc_epoch_string :
    StatusControl.parse_rtc_date_time StatusControl.rtc70 =
      some (⟨⟨2070, 1, 1⟩, 10⟩, []) := rfl

/-- Claim C10: the RTC parser applies the quarter-hour timezone offset to the
time-of-day component only, wrapping modulo 24 hours and never adjusting the
date; for every RTC string whose local time minus (for the + sign) or plus
(for the - sign) the offset crosses midnight once, the parsed datetime keeps
the original date and differs from the true UTC instant (the local instant
shifted by the offset) by exactly 24 hours (86400 seconds). -/
theorem StatusControl.rtc_timezone_midnight_wrap
    (yy mm dd h mi s tz : Nat) (sign : Bool) (date : StatusControl.DateM)
    (hyy : yy < 100) (hmm2 : mm < 100) (hdd : dd < 100) (hh : h < 24) (hmi : mi < 60)
    (hs : s < 60) (htz : tz < 100)
    (hdate : StatusControl.mkDateOpt (wrap32 ((yy : Int) + 2000)) mm dd = some date)
    (hcross : if sign then
        ((h * 3600 + mi * 60 + s : Int) < 15 * tz * 60 ∧
         (15 * tz * 60 : Int) ≤ (h * 3600 + mi * 60 + s : Int) + 86400)
      else
        (86400 ≤ (h * 3600 + mi * 60 + s : Int) + 15 * tz * 60 ∧
         (h * 3600 + mi * 60 + s : Int) + 15 * tz * 60 < 2 * 86400)) :
    ∃ t : Nat,
      StatusControl.parse_rtc_date_time (StatusControl.renderRtc yy mm dd h mi s sign tz) =
        some (⟨date, t⟩, []) ∧
      (if sign then
        StatusControl.epochSecs ⟨date, t⟩ =
          (StatusControl.epochDays date * 86400 + (h * 3600 + mi * 60 + s) - 15 * tz * 60)
            + 86400
      else
        StatusControl.epochSecs ⟨date, t⟩ =
          (StatusControl.epochDays date * 86400 + (h * 3600 + mi * 60 + s) + 15 * tz * 60)
            - 86400) := by
  have htime : StatusControl.mkTimeOpt h mi s = some (h * 3600 + mi * 60 + s) := by
    simp [StatusControl.mkTimeOpt, hh, hmi, hs]
  have hmod : ((15 * tz) % 4294967296 : Nat) = 15 * tz := Nat.mod_eq_of_lt (by omega)
  have hren := StatusControl.parse_rtc_date_time_render yy mm dd h mi s tz sign date
    (h * 3600 + mi * 60 + s) hyy hmm2 hdd (by omega) (by omega) (by omega) htz hdate htime
  rw [hmod] at hren
  cases sign with
  | true =>
    simp only [if_true] at hren hcross ⊢
    refine ⟨_, hren, ?_⟩
    unfold StatusControl.epochSecs StatusControl.timeSub
    rw [Int.toNat_of_nonneg (Int.emod_nonneg _ (by norm_num))]
    push_cast
    push_cast at hcross
    omega
  | false =>
    simp only [if_false, Bool.false_eq_true] at hren hcross ⊢
    refine ⟨_, hren, ?_⟩
    unfold StatusControl.epochSecs StatusControl.timeAdd
    rw [Int.toNat_of_nonneg (Int.emod_nonneg _ (by norm_num))]
    push_cast
    push_cast at hcross
    omega

/-- Claim C10 witness: parsing 14/01/01,01:14:36+08 keeps the date 2014-01-01
while the true UTC instant lies on 2013-12-31; the parsed value exceeds it by
exactly 86400 seconds. -/
theorem StatusControl.rtc_timezone_midnight_wrap_witness :
    ∃ t : Nat,
      StatusControl.parse_rtc_date_time (StatusControl.renderRtc 14 1 1 1 14 36 true 8) =
        some (⟨⟨2014, 1, 1⟩, t⟩, []) ∧
      StatusControl.epochSecs ⟨⟨2014, 1, 1⟩, t⟩ =
        (StatusControl.epochDays ⟨2014, 1, 1⟩ * 86400 + (1 * 3600 + 14 * 60 + 36)
          - 15 * 8 * 60) + 86400 := by
  have h := StatusControl.rtc_timezone_midnight_wrap 14 1 1 1 14 36 8 true ⟨2014, 1, 1⟩
    (by norm_num) (by norm_num) (by norm_num) (by norm_num) (by norm_num) (by norm_num)
    (by norm_num) (by decide) (by norm_num)
  obtain ⟨t, h1, h2⟩ := h
  rw [if_pos rfl] at h2
  exact ⟨t, h1, by simpa using h2⟩

namespace At

/-!
Embeds the command path of components/bt-core/src/at.rs at line level: the
input is the script of already framed and decoded response lines (read_line
produces nonempty CR/LF-stripped lines); an exhausted script models the
command timeout firing with no further traffic, so it maps to
AtError::Timeout exactly as with_timeout does in the source. Each line and
the command text are byte lists.
-/

/-- Bytes of the OK terminator line. -/
def okBytes : List Nat := [79, 75]

/-- Bytes of the DOWNLOAD terminator line. -/
def downloadBytes : List Nat := [68, 79, 87, 78, 76, 79, 65, 68]

/-- Bytes of the ERROR terminator line. -/
def errorBytes : List Nat := [69, 82, 82, 79, 82]

/-- Embeds AtControllerImpl::read_response_lines: read lines until OK or
DOWNLOAD (success) or ERROR (AtError::Error); lines equal to the command are
skipped as echo; other lines are pushed into the response vector of capacity
MAX_RESPONSE_LINES = 4, a failed push being AtError::CapacityError. Returns
the collected lines and the unconsumed script. -/
def read_response_lines (command : List Nat) (lines : List (List Nat)) :
    List (List Nat) → Except AtError (List (List Nat) × List (List Nat))
  | [] => .error .timeout
  | l :: rest =>
    if l = okBytes ∨ l = downloadBytes then .ok (lines, rest)
    else if l = errorBytes then .error .error
    else if l = command then read_response_lines command lines rest
    else if lines.length < 4 then read_response_lines command (lines ++ [l]) rest
    else .error .capacityError

/-- Embeds AtControllerImpl::read_line_until_urc: every line read is pushed
into the response vector (capacity 4, failed push is CapacityError) and
reading stops once a pushed line starts with the given prefix. -/
def read_line_until_urc (pfx : List Nat) (lines : List (List Nat)) :
    List (List Nat) → Except AtError (List (List Nat) × List (List Nat))
  | [] => .error .timeout
  | l :: rest =>
    if lines.length < 4 then
      if pfx.isPrefixOf l then .ok (lines ++ [l], rest)
      else read_line_until_urc pfx (lines ++ [l]) rest
    else .error .capacityError

/-- Embeds AtControllerImpl::handle_command: writes the command followed by
CR LF, reads response lines until a terminator, and, when the request carries
a urc_prefix, keeps reading into the same response vector until a line starts
with that prefix. Returns (bytes written, command result). -/
def handle_command (command : List Nat) (urcPfx : Option (List Nat))
    (input : List (List Nat)) : List Nat × Except AtError (List (List Nat)) :=
  let written := command ++ [13, 10]
  match read_response_lines command [] input with
  | .error e => (written, .error e)
  | .ok (lines, rest) =>
    match urcPfx with
    | none => (written, .ok lines)
    | some pfx =>
      match read_line_until_urc pfx lines rest with
      | .error e => (written, .error e)
      | .ok (lines2, _) => (written, .ok lines2)

/-- A line that terminates response reading. -/
def isTerminator (l : List Nat) : Prop := l = okBytes ∨ l = downloadBytes ∨ l = errorBytes

/-- The response lines left after echo skipping. -/
def nonEcho (c : List Nat) (ls : List (List Nat)) : List (List Nat) :=
  ls.filter (fun l => l ≠ c)

theorem rrl_nil (c : List Nat) (acc : List (List Nat)) :
    read_response_lines c acc [] = .error .timeout := rfl

theorem rrl_term_ok (c t : List Nat) (acc rest : List (List Nat))
    (ht : t = okBytes ∨ t = downloadBytes) :
    read_response_lines c acc (t :: rest) = .ok (acc, rest) := by
  unfold read_response_lines
  rw [if_pos ht]

theorem rrl_term_err (c : List Nat) (acc rest : List (List Nat)) :
    read_response_lines c acc (errorBytes :: rest) = .error .error := by
  unfold read_response_lines
  rw [if_neg (by decide), if_pos rfl]

theorem rrl_skip (c : List Nat) (pre : List (List Nat))
    (hpre : ∀ l ∈ pre, ¬ isTerminator l) :
    ∀ acc input, acc.length + (nonEcho c pre).length ≤ 4 →
      read_response_lines c acc (pre ++ input) =
        read_response_lines c (acc ++ nonEcho c pre) input := by
  induction pre with
  | nil => intro acc input _; simp [nonEcho]
  | cons l pre ih =>
    intro acc input hlen
    have hterm := hpre l (by simp)
    have hok : ¬ (l = okBytes ∨ l = downloadBytes) := by
      intro hx
      exact hterm (by rcases hx with hx | hx; exact Or.inl hx; exact Or.inr (Or.inl hx))
    have herr : ¬ (l = errorBytes) := fun hx => hterm (Or.inr (Or.inr hx))
    by_cases hecho : l = c
    · subst hecho
      have hne : nonEcho l (l :: pre) = nonEcho l pre := by
        simp [nonEcho]
      rw [hne] at hlen
      have hrest := ih (fun x hx => hpre x (by simp [hx])) acc input hlen
      have hstep : read_response_lines l acc ((l :: pre) ++ input) =
          read_response_lines l acc (pre ++ input) := by
        simp only [List.cons_append]
        simp [read_response_lines, hok, herr]
      rw [hstep, hrest, hne]
    · have hne : nonEcho c (l :: pre) = l :: nonEcho c pre := by
        simp [nonEcho, hecho]
      rw [hne] at hlen
      simp only [List.length_cons] at hlen
      have hcap : acc.length < 4 := by omega
      have hrest := ih (fun x hx => hpre x (by simp [hx])) (acc ++ [l]) input
        (by simp; omega)
      simp only [List.cons_append]
      rw [show read_response_lines c acc
          (l :: (pre ++ input)) = read_response_lines c (acc ++ [l]) (pre ++ input) by
        simp [read_response_lines, hok, herr, hecho, hcap]]
      rw [hrest, hne]
      simp [List.append_assoc]

theorem rrl_overflow (c : List Nat) (pre : List (List Nat))
    (hpre : ∀ l ∈ pre, ¬ isTerminator l) :
    ∀ acc input, acc.length ≤ 4 → 4 < acc.length + (nonEcho c pre).length →
      read_response_lines c acc (pre ++ input) = .error .capacityError := by
  induction pre with
  | nil => intro acc input h1 h2; simp [nonEcho] at h2; omega
  | cons l pre ih =>
    intro acc input h1 h2
    have hterm := hpre l (by simp)
    have hok : ¬ (l = okBytes ∨ l = downloadBytes) := by
      intro hx
      exact hterm (by rcases hx with hx | hx; exact Or.inl hx; exact Or.inr (Or.inl hx))
    have herr : ¬ (l = errorBytes) := fun hx => hterm (Or.inr (Or.inr hx))
    by_cases hecho : l = c
    · subst hecho
      have hne : nonEcho l (l :: pre) = nonEcho l pre := by
        simp [nonEcho]
      rw [hne] at h2
      have hrest := ih (fun x hx => hpre x (by simp [hx])) acc input h1 h2
      simp only [List.cons_append]
      rw [show read_response_lines l acc (l :: (pre ++ input)) =
          read_response_lines l acc (pre ++ input) by
        simp [read_response_lines, hok, herr]]
      exact hrest
    · have hne : nonEcho c (l :: pre) = l :: nonEcho c pre := by
        simp [nonEcho, hecho]
      rw [hne] at h2
      simp only [List.length_cons] at h2
      by_cases hcap : acc.length < 4
      · have := ih (fun x hx => hpre x (by simp [hx])) (acc ++ [l]) input
          (by simp; omega) (by simp; omega)
        simp only [List.cons_append]
        rw [show read_response_lines c acc (l :: (pre ++ input)) =
            read_response_lines c (acc ++ [l]) (pre ++ input) by
          simp [read_response_lines, hok, herr, hecho, hcap]]
        exact this
      · simp only [List.cons_append]
        simp [read_response_lines, hok, herr, hecho, hcap]

end At

namespace At

theorem ruu_nil (pfx : List Nat) (acc : List (List Nat)) :
    read_line_until_urc pfx acc [] = .error .timeout := rfl

theorem ruu_hit (pfx u : List Nat) (acc rest : List (List Nat))
    (hu : pfx.isPrefixOf u = true) (hacc : acc.length < 4) :
    read_line_until_urc pfx acc (u :: rest) = .ok (acc ++ [u], rest) := by
  unfold read_line_until_urc
  rw [if_pos hacc, if_pos hu]

theorem ruu_skip (pfx : List Nat) (mid : List (List Nat))
    (hmid : ∀ l ∈ mid, pfx.isPrefixOf l = false) :
    ∀ acc input, acc.length + mid.length ≤ 4 →
      read_line_until_urc pfx acc (mid ++ input) =
        read_line_until_urc pfx (acc ++ mid) input := by
  induction mid with
  | nil => intro acc input _; simp
  | cons l mid ih =>
    intro acc input hlen
    have hl : pfx.isPrefixOf l = false := hmid l (by simp)
    simp only [List.length_cons] at hlen
    have hacc : acc.length < 4 := by omega
    have hrest := ih (fun x hx => hmid x (by simp [hx])) (acc ++ [l]) input
      (by simp; omega)
    simp only [List.cons_append]
    rw [show read_line_until_urc pfx acc (l :: (mid ++ input)) =
        read_line_until_urc pfx (acc ++ [l]) (mid ++ input) by
      simp [read_line_until_urc, hacc, hl]]
    rw [hrest]
    simp [List.append_assoc]

end At

/-- Claim C2: for every AT command request without a urc_prefix, run over a
script that delivers the non-terminator lines pre first, handle_command
writes the command followed by CR LF and then: an OK or DOWNLOAD line
completes it successfully with the non-echo lines of pre as the response; an
ERROR line fails it with the modem-error kind (AtError::Error) regardless of
how many lines were already collected; an exhausted script (the timeout
elapsing) fails it with Timeout; lines equal to the command text are skipped
as echo, and more than 4 collected response lines yield CapacityError before
any terminator is reached. -/
theorem At.handle_command_spec (c t : List Nat) (pre rest : List (List Nat))
    (hpre : ∀ l ∈ pre, ¬ At.isTerminator l)
    (ht : t = At.okBytes ∨ t = At.downloadBytes) :
    (At.handle_command c none (pre ++ t :: rest) =
      (c ++ [13, 10],
       if (At.nonEcho c pre).length ≤ 4 then .ok (At.nonEcho c pre)
       else .error .capacityError)) ∧
    (At.handle_command c none (pre ++ At.errorBytes :: rest) =
      (c ++ [13, 10],
       if (At.nonEcho c pre).length ≤ 4 then .error .error
       else .error .capacityError)) ∧
    (At.handle_command c none pre =
      (c ++ [13, 10],
       if (At.nonEcho c pre).length ≤ 4 then .error .timeout
       else .error .capacityError)) := by
  by_cases hlen : (At.nonEcho c pre).length ≤ 4
  · rw [if_pos hlen, if_pos hlen, if_pos hlen]
    have hskip : ∀ input, At.read_response_lines c [] (pre ++ input) =
        At.read_response_lines c ([] ++ At.nonEcho c pre) input :=
      fun input => At.rrl_skip c pre hpre [] input (by simpa using hlen)
    refine ⟨?_, ?_, ?_⟩
    · have h1 : At.read_response_lines c [] (pre ++ t :: rest) =
          .ok (At.nonEcho c pre, rest) := by
        rw [hskip (t :: rest), At.rrl_term_ok c t ([] ++ At.nonEcho c pre) rest ht]
        simp
      unfold At.handle_command
      rw [h1]
    · have h1 : At.read_response_lines c [] (pre ++ At.errorBytes :: rest) =
          .error .error := by
        rw [hskip (At.errorBytes :: rest), At.rrl_term_err]
      unfold At.handle_command
      rw [h1]
    · have h1 : At.read_response_lines c [] pre = .error .timeout := by
        have h2 := hskip []
        rw [List.append_nil] at h2
        rw [h2, At.rrl_nil]
      unfold At.handle_command
      rw [h1]
  · rw [if_neg hlen, if_neg hlen, if_neg hlen]
    have hov : ∀ input, At.read_response_lines c [] (pre ++ input) =
        .error .capacityError :=
      fun input => At.rrl_overflow c pre hpre [] input (by simp) (by simp; omega)
    refine ⟨?_, ?_, ?_⟩
    · unfold At.handle_command
      rw [hov (t :: rest)]
    · unfold At.handle_command
      rw [hov (At.errorBytes :: rest)]
    · have h1 : At.read_response_lines c [] pre = .error .capacityError := by
        have h2 := hov []
        rwa [List.append_nil] at h2
      unfold At.handle_command
      rw [h1]

/-- Claim C2 witness: command AT with one response line and an OK terminator
completes with that single line collected. -/
theorem At.handle_command_spec_witness :
    At.handle_command [65, 84] none [[49], At.okBytes] =
      ([65, 84, 13, 10], .ok [[49]]) := by
  have h := (At.handle_command_spec [65, 84] At.okBytes [[49]] []
    (by intro l hl
        simp only [List.mem_singleton] at hl
        subst hl
        unfold At.isTerminator
        decide)
    (Or.inl rfl)).1
  rw [show ([[49]] : List (List Nat)) ++ At.okBytes :: [] = [[49], At.okBytes] by rfl] at h
  rw [h]
  rfl

/-- Claim C8: for every AT command request carrying a urc_prefix, after the
OK terminator the controller keeps reading lines until one starts with that
prefix; the intermediate lines and the matching line are appended to the
response, so the response's last line is the URC line; if the script is
exhausted (the timeout elapsing) before a matching line arrives, the command
fails with Timeout. -/
theorem At.handle_command_urc_spec (c pfx u : List Nat) (pre mid rest2 : List (List Nat))
    (hpre : ∀ l ∈ pre, ¬ At.isTerminator l)
    (hmid : ∀ l ∈ mid, pfx.isPrefixOf l = false)
    (hu : pfx.isPrefixOf u = true)
    (hcap : (At.nonEcho c pre).length + mid.length + 1 ≤ 4) :
    (At.handle_command c (some pfx) (pre ++ At.okBytes :: (mid ++ u :: rest2)) =
      (c ++ [13, 10], .ok (At.nonEcho c pre ++ mid ++ [u]))) ∧
    (At.nonEcho c pre ++ mid ++ [u]).getLast? = some u ∧
    (At.handle_command c (some pfx) (pre ++ At.okBytes :: mid) =
      (c ++ [13, 10], .error .timeout)) := by
  have hlen : (At.nonEcho c pre).length ≤ 4 := by omega
  have hskip : ∀ input, At.read_response_lines c [] (pre ++ input) =
      At.read_response_lines c ([] ++ At.nonEcho c pre) input :=
    fun input => At.rrl_skip c pre hpre [] input (by simpa using hlen)
  refine ⟨?_, ?_, ?_⟩
  · have h1 : At.read_response_lines c [] (pre ++ At.okBytes :: (mid ++ u :: rest2)) =
        .ok (At.nonEcho c pre, mid ++ u :: rest2) := by
      rw [hskip (At.okBytes :: (mid ++ u :: rest2)),
        At.rrl_term_ok c At.okBytes ([] ++ At.nonEcho c pre) (mid ++ u :: rest2)
          (Or.inl rfl)]
      simp
    have h2 : At.read_line_until_urc pfx (At.nonEcho c pre) (mid ++ u :: rest2) =
        .ok (At.nonEcho c pre ++ mid ++ [u], rest2) := by
      rw [At.ruu_skip pfx mid hmid (At.nonEcho c pre) (u :: rest2) (by omega)]
      rw [At.ruu_hit pfx u _ rest2 hu (by simp; omega)]
    simp only [At.handle_command, h1, h2]
  · exact List.getLast?_concat _
  · have h1 : At.read_response_lines c [] (pre ++ At.okBytes :: mid) =
        .ok (At.nonEcho c pre, mid) := by
      rw [hskip (At.okBytes :: mid),
        At.rrl_term_ok c At.okBytes ([] ++ At.nonEcho c pre) mid (Or.inl rfl)]
      simp
    have h2 : At.read_line_until_urc pfx (At.nonEcho c pre) mid = .error .timeout := by
      rw [show mid = mid ++ ([] : List (List Nat)) by simp,
        At.ruu_skip pfx mid hmid (At.nonEcho c pre) [] (by omega), At.ruu_nil]
    simp only [At.handle_command, h1, h2]

/-- Claim C8 witness: command AT with urc_prefix bytes of + completes once
the URC line arrives after OK, and that line ends the response. -/
theorem At.handle_command_urc_spec_witness :
    At.handle_command [65, 84] (some [43]) [At.okBytes, [43, 72]] =
      ([65, 84, 13, 10], .ok [[43, 72]]) := by
  have h := (At.handle_command_urc_spec [65, 84] [43] [43, 72] [] [] []
    (by intro l hl; simp at hl) (by intro l hl; simp at hl) (by decide) (by decide)).1
  simpa using h

namespace SolarMonitor

/-!
Embeds solar_monitor.rs (components/bt-core). The wall-clock value observed by
handle_reading is passed in as an Option Int of UTC seconds, mirroring
UtcTime::now() followed by and_utc().timestamp(). The protobuf structs
(proto::bt_::solar_::Upload and friends) are generated at build time and are
not part of the sources.
-/

/-- Modelled from the spec: protobuf Reading with the five i32 fields, volts
and amperes scaled to milli-units, power in watts (the generated micropb
struct is absent from the sources). -/
structure ProtoReading where
  battery_voltage : Int
  battery_current : Int
  panel_voltage : Int
  panel_power : Int
  load_current : Int
deriving DecidableEq, Repr

/-- A Rust float-to-i32 cast: truncation toward zero, saturating at the i32
bounds. -/
def i32SatTrunc (q : Rat) : Int :=
  max (-2147483648) (min 2147483647 (q.num / (q.den : Int)))

/-- Embeds the From Reading conversion: voltages and currents are multiplied
by 1000 and cast to i32; panel power is cast unscaled. -/
def protoOfReading (r : VeDirect.Reading) : ProtoReading :=
  ⟨i32SatTrunc (r.battery_voltage * 1000), i32SatTrunc (r.battery_current * 1000),
   i32SatTrunc (r.panel_voltage * 1000), i32SatTrunc r.panel_power,
   i32SatTrunc (r.load_current * 1000)⟩

/-- Modelled from the spec: protobuf UploadEntry (offset_in_seconds plus one
reading). -/
structure UploadEntry where
  offset_in_seconds : Int
  reading : ProtoReading
deriving DecidableEq, Repr

/-- Modelled from the spec: protobuf Upload with start_timestamp (int64 UTC
seconds) and at most 12 entries; is_full() of the generated entries vector is
length = 12. -/
structure Upload where
  start_timestamp : Int
  entries : List UploadEntry
deriving DecidableEq, Repr

/-- The capacity of the Upload entries vector, from the protobuf schema. -/
def ENTRIES_CAP : Nat := 12

/-- The micropb bounded-vector push: silently dropped when full (the source
ignores the push result). -/
def pushCap (xs : List UploadEntry) (x : UploadEntry) : List UploadEntry :=
  if xs.length < ENTRIES_CAP then xs ++ [x] else xs

/-- Embeds Runner::handle_reading: with no wall clock the reading is dropped;
otherwise the entry joins the open batch with offset now - start_timestamp
(an i64 difference cast to i32), or starts a fresh batch at offset 0 with
start_timestamp now; a batch that has just reached 12 entries is taken out of
the state and emitted (the protobuf byte encoding of the emitted batch is
kept as the structure itself; encoding a full batch into the
MAX_SIZE-bounded buffer cannot fail). Returns (new state, emitted batch). -/
def handle_reading (tsOpt : Option Int) (r : VeDirect.Reading) (st : Option Upload) :
    Option Upload × Option Upload :=
  match tsOpt with
  | none => (st, none)
  | some ts =>
    let st2 : Option Upload :=
      match st with
      | some u =>
        some { u with
          entries := pushCap u.entries
            ⟨wrap32 (ts - u.start_timestamp), protoOfReading r⟩ }
      | none => some ⟨ts, [⟨0, protoOfReading r⟩]⟩
    match st2 with
    | none => (none, none)
    | some u =>
      if u.entries.length = ENTRIES_CAP then (none, some u) else (st2, none)

/-- Drives handle_reading over a list of (wall clock, reading) pairs,
collecting the emitted batches in order (the run loop sends each emitted
batch to the upload channel). -/
def run_monitor (st : Option Upload) :
    List (Option Int × VeDirect.Reading) → Option Upload × List Upload
  | [] => (st, [])
  | (ts, r) :: rest =>
    let p := handle_reading ts r st
    let q := run_monitor p.1 rest
    (q.1, p.2.toList ++ q.2)

/-- The scenario input: 24 readings whose wall-clock timestamps are t0 plus
5-minute steps. -/
def c4Input (t0 : Int) (rs : Nat → VeDirect.Reading) :
    List (Option Int × VeDirect.Reading) :=
  [(some t0, rs 0), (some (t0 + 300), rs 1), (some (t0 + 600), rs 2),
   (some (t0 + 900), rs 3), (some (t0 + 1200), rs 4), (some (t0 + 1500), rs 5),
   (some (t0 + 1800), rs 6), (some (t0 + 2100), rs 7), (some (t0 + 2400), rs 8),
   (some (t0 + 2700), rs 9), (some (t0 + 3000), rs 10), (some (t0 + 3300), rs 11),
   (some (t0 + 3600), rs 12), (some (t0 + 3900), rs 13), (some (t0 + 4200), rs 14),
   (some (t0 + 4500), rs 15), (some (t0 + 4800), rs 16), (some (t0 + 5100), rs 17),
   (some (t0 + 5400), rs 18), (some (t0 + 5700), rs 19), (some (t0 + 6000), rs 20),
   (some (t0 + 6300), rs 21), (some (t0 + 6600), rs 22), (some (t0 + 6900), rs 23)]

end SolarMonitor

namespace SolarMonitor

theorem run_monitor_cons (st : Option Upload) (ts : Option Int) (r : VeDirect.Reading)
    (rest : List (Option Int × VeDirect.Reading)) :
    run_monitor st ((ts, r) :: rest) =
      ((run_monitor (handle_reading ts r st).1 rest).1,
       (handle_reading ts r st).2.toList ++ (run_monitor (handle_reading ts r st).1 rest).2) :=
  rfl

theorem hr_fresh (ts : Int) (r : VeDirect.Reading) :
    handle_reading (some ts) r none = (some ⟨ts, [⟨0, protoOfReading r⟩]⟩, none) := by
  simp [handle_reading, ENTRIES_CAP]

theorem hr_append (ts : Int) (r : VeDirect.Reading) (u : Upload)
    (h : u.entries.length < 11) :
    handle_reading (some ts) r (some u) =
      (some ⟨u.start_timestamp,
        u.entries ++ [⟨wrap32 (ts - u.start_timestamp), protoOfReading r⟩]⟩, none) := by
  simp only [handle_reading, pushCap, ENTRIES_CAP]
  rw [if_pos (by omega : u.entries.length < 12)]
  have hne : ¬ ((u.entries ++
      [(⟨wrap32 (ts - u.start_timestamp), protoOfReading r⟩ : UploadEntry)]).length = 12) := by
    simp
    omega
  simp [hne]
  omega

theorem hr_emit (ts : Int) (r : VeDirect.Reading) (u : Upload)
    (h : u.entries.length = 11) :
    handle_reading (some ts) r (some u) =
      (none, some ⟨u.start_timestamp,
        u.entries ++ [⟨wrap32 (ts - u.start_timestamp), protoOfReading r⟩]⟩) := by
  simp only [handle_reading, pushCap, ENTRIES_CAP]
  rw [if_pos (by omega : u.entries.length < 12)]
  have heq : (u.entries ++
      [(⟨wrap32 (ts - u.start_timestamp), protoOfReading r⟩ : UploadEntry)]).length = 12 := by
    simp [h]
  simp [heq]

theorem fill_batch (inputs : List (Int × VeDirect.Reading)) :
    ∀ (u : Upload) (rest : List (Option Int × VeDirect.Reading)),
      u.entries.length + inputs.length = 12 → inputs ≠ [] →
      run_monitor (some u) (inputs.map (fun p => (some p.1, p.2)) ++ rest) =
        ((run_monitor none rest).1,
         ⟨u.start_timestamp,
          u.entries ++ inputs.map
            (fun p => ⟨wrap32 (p.1 - u.start_timestamp), protoOfReading p.2⟩)⟩ ::
           (run_monitor none rest).2) := by
  induction inputs with
  | nil => intro u rest _ hne; exact absurd rfl hne
  | cons p inputs ih =>
    intro u rest h _
    obtain ⟨ts, r⟩ := p
    by_cases hemp : inputs = []
    · subst hemp
      have hlen : u.entries.length = 11 := by
        simp at h
        omega
      simp only [List.map_cons, List.map_nil, List.nil_append, List.cons_append,
        List.append_nil]
      rw [run_monitor_cons, hr_emit ts r u hlen]
      simp
    · have hlen : u.entries.length < 11 := by
        simp at h
        have : 1 ≤ inputs.length := by
          cases inputs with
          | nil => exact absurd rfl hemp
          | cons q qs => simp
        omega
      simp only [List.map_cons, List.cons_append]
      rw [run_monitor_cons, hr_append ts r u hlen]
      have hrec := ih
        ⟨u.start_timestamp,
         u.entries ++ [⟨wrap32 (ts - u.start_timestamp), protoOfReading r⟩]⟩ rest
        (by simp; simp at h; omega) hemp
      simp only [] at hrec
      simp only [hrec]
      simp [List.append_assoc]

/-- The first batch-filling input segment of the scenario: readings 1..11 at
timestamps t0 + 300 .. t0 + 3300. -/
def c4B1 (t0 : Int) (rs : Nat → VeDirect.Reading) : List (Int × VeDirect.Reading) :=
  [(t0 + 300, rs 1), (t0 + 600, rs 2), (t0 + 900, rs 3), (t0 + 1200, rs 4),
   (t0 + 1500, rs 5), (t0 + 1800, rs 6), (t0 + 2100, rs 7), (t0 + 2400, rs 8),
   (t0 + 2700, rs 9), (t0 + 3000, rs 10), (t0 + 3300, rs 11)]

/-- The second batch-filling input segment of the scenario: readings 13..23 at
timestamps t0 + 3900 .. t0 + 6900. -/
def c4B2 (t0 : Int) (rs : Nat → VeDirect.Reading) : List (Int × VeDirect.Reading) :=
  [(t0 + 3900, rs 13), (t0 + 4200, rs 14), (t0 + 4500, rs 15), (t0 + 4800, rs 16),
   (t0 + 5100, rs 17), (t0 + 5400, rs 18), (t0 + 5700, rs 19), (t0 + 6000, rs 20),
   (t0 + 6300, rs 21), (t0 + 6600, rs 22), (t0 + 6900, rs 23)]

end SolarMonitor

/-- Claim C4: with the wall clock synchronized, feeding the solar monitor 24
readings whose timestamps are t0 + 5-minute steps produces exactly two
uploads: the first with start_timestamp t0 and 12 entries at offsets 0, 300,
..., 3300 seconds, the second with start_timestamp t0 + 3600 and the same
offset structure; moreover a batch is emitted exactly when it reaches 12
entries (the 12th append emits and clears the state, earlier appends emit
nothing) and the next reading starts a fresh batch whose first offset is 0. -/
theorem SolarMonitor.solar_monitor_batch_spec (t0 : Int) (rs : Nat → VeDirect.Reading) :
    ((SolarMonitor.run_monitor none (SolarMonitor.c4Input t0 rs)).2.map
        (fun u => u.start_timestamp) = [t0, t0 + 3600]) ∧
    ((SolarMonitor.run_monitor none (SolarMonitor.c4Input t0 rs)).2.map
        (fun u => u.entries.map (fun e => e.offset_in_seconds)) =
      [[0, 300, 600, 900, 1200, 1500, 1800, 2100, 2400, 2700, 3000, 3300],
       [0, 300, 600, 900, 1200, 1500, 1800, 2100, 2400, 2700, 3000, 3300]]) ∧
    ((SolarMonitor.run_monitor none (SolarMonitor.c4Input t0 rs)).1 = none) ∧
    (∀ (ts : Int) (r : VeDirect.Reading),
      SolarMonitor.handle_reading (some ts) r none =
        (some ⟨ts, [⟨0, SolarMonitor.protoOfReading r⟩]⟩, none)) ∧
    (∀ (ts : Int) (r : VeDirect.Reading) (u : SolarMonitor.Upload),
      u.entries.length = 11 →
      SolarMonitor.handle_reading (some ts) r (some u) =
        (none, some ⟨u.start_timestamp,
          u.entries ++ [⟨wrap32 (ts - u.start_timestamp),
            SolarMonitor.protoOfReading r⟩]⟩)) ∧
    (∀ (ts : Int) (r : VeDirect.Reading) (u : SolarMonitor.Upload),
      u.entries.length < 11 →
      (SolarMonitor.handle_reading (some ts) r (some u)).2 = none) := by
  have hshape : SolarMonitor.c4Input t0 rs =
      (some t0, rs 0) :: ((SolarMonitor.c4B1 t0 rs).map (fun p => (some p.1, p.2)) ++
        ((some (t0 + 3600), rs 12) ::
          ((SolarMonitor.c4B2 t0 rs).map (fun p => (some p.1, p.2)) ++ []))) := by
    simp [SolarMonitor.c4Input, SolarMonitor.c4B1, SolarMonitor.c4B2]
  have hfill2 := SolarMonitor.fill_batch (SolarMonitor.c4B2 t0 rs)
    ⟨t0 + 3600, [⟨0, SolarMonitor.protoOfReading (rs 12)⟩]⟩ []
    (by simp [SolarMonitor.c4B2]) (by simp [SolarMonitor.c4B2])
  have hfill1 := SolarMonitor.fill_batch (SolarMonitor.c4B1 t0 rs)
    ⟨t0, [⟨0, SolarMonitor.protoOfReading (rs 0)⟩]⟩
    ((some (t0 + 3600), rs 12) ::
      ((SolarMonitor.c4B2 t0 rs).map (fun p => (some p.1, p.2)) ++ []))
    (by simp [SolarMonitor.c4B1]) (by simp [SolarMonitor.c4B1])
  have hrest2 : SolarMonitor.run_monitor none
      ((some (t0 + 3600), rs 12) ::
        ((SolarMonitor.c4B2 t0 rs).map (fun p => (some p.1, p.2)) ++ [])) =
      (none,
       [⟨t0 + 3600, ⟨0, SolarMonitor.protoOfReading (rs 12)⟩ ::
          (SolarMonitor.c4B2 t0 rs).map
            (fun p => ⟨wrap32 (p.1 - (t0 + 3600)), SolarMonitor.protoOfReading p.2⟩)⟩]) := by
    rw [SolarMonitor.run_monitor_cons, SolarMonitor.hr_fresh]
    rw [hfill2]
    simp [SolarMonitor.run_monitor]
  have hrun : SolarMonitor.run_monitor none (SolarMonitor.c4Input t0 rs) =
      (none,
       [⟨t0, ⟨0, SolarMonitor.protoOfReading (rs 0)⟩ ::
          (SolarMonitor.c4B1 t0 rs).map
            (fun p => ⟨wrap32 (p.1 - t0), SolarMonitor.protoOfReading p.2⟩)⟩,
        ⟨t0 + 3600, ⟨0, SolarMonitor.protoOfReading (rs 12)⟩ ::
          (SolarMonitor.c4B2 t0 rs).map
            (fun p => ⟨wrap32 (p.1 - (t0 + 3600)), SolarMonitor.protoOfReading p.2⟩)⟩]) := by
    rw [hshape, SolarMonitor.run_monitor_cons, SolarMonitor.hr_fresh]
    rw [hfill1, hrest2]
    simp
  refine ⟨?_, ?_, ?_, ?_, ?_, ?_⟩
  · rw [hrun]
    simp
  · rw [hrun]
    simp [SolarMonitor.c4B1, SolarMonitor.c4B2, add_sub_cancel_left,
      add_sub_add_left_eq_sub]
    norm_num [wrap32]
  · rw [hrun]
  · intro ts r
    exact SolarMonitor.hr_fresh ts r
  · intro ts r u hu
    exact SolarMonitor.hr_emit ts r u hu
  · intro ts r u hu
    rw [SolarMonitor.hr_append ts r u hu]

/-- Claim C4 witness: the scenario at t0 = 0 with all-zero readings, plus a
fresh batch and an emitting 12th append at concrete states. -/
theorem SolarMonitor.solar_monitor_batch_spec_witness :
    ((SolarMonitor.run_monitor none
        (SolarMonitor.c4Input 0 (fun _ => VeDirect.Reading.zero))).2.map
        (fun u => u.start_timestamp) = [0, 3600]) ∧
    (SolarMonitor.handle_reading (some 5) VeDirect.Reading.zero none =
      (some ⟨5, [⟨0, SolarMonitor.protoOfReading VeDirect.Reading.zero⟩]⟩, none)) ∧
    ((SolarMonitor.handle_reading (some 7) VeDirect.Reading.zero
        (some ⟨0, List.replicate 11
          ⟨0, SolarMonitor.protoOfReading VeDirect.Reading.zero⟩⟩)).2 =
      some ⟨0, List.replicate 11
          ⟨0, SolarMonitor.protoOfReading VeDirect.Reading.zero⟩ ++
        [⟨wrap32 (7 - 0), SolarMonitor.protoOfReading VeDirect.Reading.zero⟩]⟩) := by
  have h := SolarMonitor.solar_monitor_batch_spec 0 (fun _ => VeDirect.Reading.zero)
  refine ⟨by simpa using h.1, h.2.2.2.1 5 VeDirect.Reading.zero, ?_⟩
  have h12 := h.2.2.2.2.1 7 VeDirect.Reading.zero
    ⟨0, List.replicate 11 ⟨0, SolarMonitor.protoOfReading VeDirect.Reading.zero⟩⟩
    (by simp)
  rw [h12]

namespace VeDirect

/-!
Embeds the FrameHandler of sensor/ve_direct.rs over a byte-list stream. Labels
and values are kept as raw byte lists: String::from_utf8 decoding changes only
the text stored in the frame map, never the control flow, because the decoded
label equals "Checksum" exactly when the raw bytes equal its ASCII bytes.
read_byte retries serial errors forever, so a read is simply list consumption
and an exhausted list (which would block forever) is None. The frame loop is
fuel-structured with one fuel unit per message, and every call site passes at
least the remaining input length, which each message consumes more than one
byte of.
-/

/-- Checksum::add on the u8 accumulator (wrapping add). -/
def checksumAdd (chk b : Nat) : Nat := (chk + b) % 256

/-- The while loop of run_once scanning for a CR byte, clearing the checksum
accumulator on every non-CR byte read. -/
def scanForCR (chk : Nat) : List Nat → Option (Nat × List Nat)
  | [] => none
  | b :: rest => if b = 13 then some (chk, rest) else scanForCR 0 rest

/-- Embeds read_label: consume bytes into a 32-byte-capped buffer (overflow
bytes dropped by the failed push) until a tab, every byte checksummed
including the tab. -/
def readLabel (chk : Nat) (buf : List Nat) : List Nat → Option (Nat × List Nat × List Nat)
  | [] => none
  | b :: rest =>
    let c2 := checksumAdd chk b
    if b = 9 then some (c2, buf, rest)
    else readLabel c2 (if buf.length < 32 then buf ++ [b] else buf) rest

/-- Embeds read_value: same as read_label with a CR terminator. -/
def readValue (chk : Nat) (buf : List Nat) : List Nat → Option (Nat × List Nat × List Nat)
  | [] => none
  | b :: rest =>
    let c2 := checksumAdd chk b
    if b = 13 then some (c2, buf, rest)
    else readValue c2 (if buf.length < 32 then buf ++ [b] else buf) rest

/-- The frame map: heapless LinearMap entries in insertion order. -/
abbrev Msgs := List (List Nat × List Nat)

/-- heapless LinearMap::insert with capacity MAX_MESSAGES = 20: replace an
existing key, append while not full, and silently drop otherwise (the source
only logs the error). -/
def insertMsg (msgs : Msgs) (k v : List Nat) : Msgs :=
  if msgs.any (fun p => p.1 = k) then
    msgs.map (fun p => if p.1 = k then (p.1, v) else p)
  else if msgs.length < 20 then msgs ++ [(k, v)] else msgs

/-- ASCII bytes of the Checksum label. -/
def checksumLabel : List Nat := [67, 104, 101, 99, 107, 115, 117, 109]

/-- Embeds the message loop of run_once after the leading CR: read one byte
(the LF), read a label; on the Checksum label read the checksum byte and
validate the accumulator against zero, clearing it on both outcomes (the
invalid case also clears the collected messages and yields Err); otherwise
read a value, insert, and continue. Returns (result, checksum accumulator,
remaining stream). -/
def frameLoop : Nat → Nat → Msgs → List Nat → Option (Except Unit Msgs × Nat × List Nat)
  | 0, _, _, _ => none
  | _ + 1, _, _, [] => none
  | fuel + 1, chk, msgs, b :: rest =>
    let c1 := checksumAdd chk b
    match readLabel c1 [] rest with
    | none => none
    | some (c2, label, rest2) =>
      if label = checksumLabel then
        match rest2 with
        | [] => none
        | cb :: rest3 =>
          let c3 := checksumAdd c2 cb
          if c3 = 0 then some (.ok msgs, 0, rest3)
          else some (.error (), 0, rest3)
      else
        match readValue c2 [] rest2 with
        | none => none
        | some (c3, value, rest3) => frameLoop fuel c3 (insertMsg msgs label value) rest3

/-- Embeds run_once: scan to the CR (the accumulator cleared along the way),
checksum the CR, then run the message loop. -/
def run_once (chk : Nat) (input : List Nat) : Option (Except Unit Msgs × Nat × List Nat) :=
  match scanForCR chk input with
  | none => none
  | some (c0, rest) => frameLoop (rest.length + 1) (checksumAdd c0 13) [] rest

/-- A nonempty all-digit run and its value (shared body of the Rust
str::parse integer implementations). -/
def parseDigitsAll (cs : List Nat) : Option Nat :=
  if cs ≠ [] ∧ cs.all (fun b => isDigitB b) then some (digitsVal cs) else none

/-- Rust str::parse::<u32>: optional leading plus sign, digits only, u32
range. -/
def parseAllU32 (cs : List Nat) : Option Nat :=
  let ds := match cs with
    | b :: rest => if b = 43 then rest else b :: rest
    | [] => []
  (parseDigitsAll ds).bind fun v => if v < 4294967296 then some v else none

/-- Rust str::parse::<i32>: optional sign, digits only, i32 range. -/
def parseAllI32 (cs : List Nat) : Option Int :=
  match cs with
  | [] => none
  | b :: rest =>
    if b = 43 then
      (parseDigitsAll rest).bind fun v =>
        if v ≤ 2147483647 then some ((v : Int)) else none
    else if b = 45 then
      (parseDigitsAll rest).bind fun v =>
        if v ≤ 2147483648 then some (-(v : Int)) else none
    else
      (parseDigitsAll (b :: rest)).bind fun v =>
        if v ≤ 2147483647 then some ((v : Int)) else none

/-- ASCII bytes of the V label. -/
def labelV : List Nat := [86]

/-- ASCII bytes of the I label. -/
def labelI : List Nat := [73]

/-- ASCII bytes of the VPV label. -/
def labelVPV : List Nat := [86, 80, 86]

/-- ASCII bytes of the PPV label. -/
def labelPPV : List Nat := [80, 80, 86]

/-- ASCII bytes of the IL label. -/
def labelIL : List Nat := [73, 76]

/-- One arm of the read_next projection match: known labels whose value
parses update the corresponding Reading field (milli-units divided by 1000
for V, I, VPV, IL; watts unscaled for PPV); everything else is ignored. -/
def applyMessage (r : Reading) (kv : List Nat × List Nat) : Reading :=
  if kv.1 = labelV then
    match parseAllU32 kv.2 with
    | some mv => { r with battery_voltage := (mv : Rat) / 1000 }
    | none => r
  else if kv.1 = labelI then
    match parseAllI32 kv.2 with
    | some ma => { r with battery_current := (ma : Rat) / 1000 }
    | none => r
  else if kv.1 = labelVPV then
    match parseAllU32 kv.2 with
    | some mv => { r with panel_voltage := (mv : Rat) / 1000 }
    | none => r
  else if kv.1 = labelPPV then
    match parseAllU32 kv.2 with
    | some w => { r with panel_power := (w : Rat) }
    | none => r
  else if kv.1 = labelIL then
    match parseAllI32 kv.2 with
    | some ma => { r with load_current := (ma : Rat) / 1000 }
    | none => r
  else r

/-- The projection of a valid frame map into a Reading, folding the map
entries in insertion order over a zero Reading. -/
def projectReading (m : Msgs) : Reading := m.foldl applyMessage Reading.zero

/-- Embeds read_next: loop run_once, discarding Err frames, until a valid
frame yields a Reading; fuel-structured, one unit per run_once attempt, each
of which consumes at least one byte. -/
def readNextAux : Nat → List Nat → Option (Reading × List Nat)
  | 0, _ => none
  | fuel + 1, input =>
    match run_once 0 input with
    | none => none
    | some (.ok m, _, rest) => some (projectReading m, rest)
    | some (.error _, _, rest) => readNextAux fuel rest

/-- Embeds read_next at the stream's own length as fuel. -/
def read_next (input : List Nat) : Option (Reading × List Nat) :=
  readNextAux (input.length + 1) input

end VeDirect

namespace VeDirect

theorem readLabel_spec : ∀ (input : List Nat) (chk : Nat) (buf : List Nat)
    (c2 : Nat) (lab : List Nat) (rest : List Nat),
    readLabel chk buf input = some (c2, lab, rest) →
    ∃ cs, input = cs ++ rest ∧ c2 = (chk + cs.sum) % 256 := by
  intro input
  induction input with
  | nil => intro chk buf c2 lab rest h; simp [readLabel] at h
  | cons b rest' ih =>
    intro chk buf c2 lab rest h
    by_cases hb : b = 9
    · subst hb
      simp only [readLabel, ite_true, if_pos rfl] at h
      simp only [Option.some.injEq, Prod.mk.injEq] at h
      obtain ⟨h1, _, h3⟩ := h
      refine ⟨[9], by simp [h3], ?_⟩
      rw [← h1]
      simp [checksumAdd]
    · simp only [readLabel, hb, ite_false] at h
      obtain ⟨cs', hsplit, hc⟩ := ih (checksumAdd chk b) _ c2 lab rest h
      refine ⟨b :: cs', by simp [hsplit], ?_⟩
      rw [hc]
      simp only [checksumAdd, List.sum_cons]
      omega

theorem readValue_spec : ∀ (input : List Nat) (chk : Nat) (buf : List Nat)
    (c2 : Nat) (lab : List Nat) (rest : List Nat),
    readValue chk buf input = some (c2, lab, rest) →
    ∃ cs, input = cs ++ rest ∧ c2 = (chk + cs.sum) % 256 := by
  intro input
  induction input with
  | nil => intro chk buf c2 lab rest h; simp [readValue] at h
  | cons b rest' ih =>
    intro chk buf c2 lab rest h
    by_cases hb : b = 13
    · subst hb
      simp only [readValue, ite_true, if_pos rfl] at h
      simp only [Option.some.injEq, Prod.mk.injEq] at h
      obtain ⟨h1, _, h3⟩ := h
      refine ⟨[13], by simp [h3], ?_⟩
      rw [← h1]
      simp [checksumAdd]
    · simp only [readValue, hb, ite_false] at h
      obtain ⟨cs', hsplit, hc⟩ := ih (checksumAdd chk b) _ c2 lab rest h
      refine ⟨b :: cs', by simp [hsplit], ?_⟩
      rw [hc]
      simp only [checksumAdd, List.sum_cons]
      omega

theorem scanForCR_zero_spec : ∀ (input : List Nat) (c0 : Nat) (rest : List Nat),
    scanForCR 0 input = some (c0, rest) →
    c0 = 0 ∧ ∃ pre, input = pre ++ 13 :: rest ∧ ∀ b ∈ pre, b ≠ 13 := by
  intro input
  induction input with
  | nil => intro c0 rest h; simp [scanForCR] at h
  | cons b rest' ih =>
    intro c0 rest h
    by_cases hb : b = 13
    · subst hb
      simp only [scanForCR, ite_true, if_pos rfl, Option.some.injEq, Prod.mk.injEq] at h
      obtain ⟨h1, h2⟩ := h
      exact ⟨h1.symm, [], by simp [h2], by simp⟩
    · simp only [scanForCR, hb, ite_false] at h
      obtain ⟨hc0, pre, hsplit, hpre⟩ := ih c0 rest h
      refine ⟨hc0, b :: pre, by simp [hsplit], ?_⟩
      intro x hx
      rcases List.mem_cons.mp hx with hx | hx
      · subst hx; exact hb
      · exact hpre x hx

theorem frameLoop_spec : ∀ (fuel : Nat), ∀ (chk : Nat) (msgs : Msgs) (input : List Nat)
    (res : Except Unit Msgs) (chkOut : Nat) (rest : List Nat),
    frameLoop fuel chk msgs input = some (res, chkOut, rest) →
    ∃ cs, input = cs ++ rest ∧ chkOut = 0 ∧
      ((∃ m, res = .ok m) ↔ (chk + cs.sum) % 256 = 0) := by
  intro fuel
  induction fuel with
  | zero => intro chk msgs input res chkOut rest h; simp [frameLoop] at h
  | succ fuel ih =>
    intro chk msgs input res chkOut rest h
    cases input with
    | nil => simp [frameLoop] at h
    | cons b rest' =>
      cases hL : readLabel (checksumAdd chk b) [] rest' with
      | none => simp [frameLoop, hL] at h
      | some tr =>
        obtain ⟨c2, label, rest2⟩ := tr
        obtain ⟨csL, hrest', hc2⟩ :=
          readLabel_spec rest' (checksumAdd chk b) [] c2 label rest2 hL
        by_cases hlab : label = checksumLabel
        · subst hlab
          cases rest2 with
          | nil => simp [frameLoop, hL] at h
          | cons cb rest3 =>
            have h2 : (if checksumAdd c2 cb = 0
                then (some (.ok msgs, 0, rest3) : Option (Except Unit Msgs × Nat × List Nat))
                else some (.error (), 0, rest3)) = some (res, chkOut, rest) := by
              simpa [frameLoop, hL] using h
            have hsum : ∀ z : Prop, (z ↔ checksumAdd c2 cb = 0) →
                (z ↔ (chk + (b :: (csL ++ [cb])).sum) % 256 = 0) := by
              intro z hz
              rw [hz]
              have : checksumAdd c2 cb = (chk + (b :: (csL ++ [cb])).sum) % 256 := by
                rw [hc2]
                simp only [checksumAdd, List.sum_cons, List.sum_append, List.sum_cons,
                  List.sum_nil]
                omega
              rw [this]
            by_cases hz : checksumAdd c2 cb = 0
            · rw [if_pos hz] at h2
              simp only [Option.some.injEq, Prod.mk.injEq] at h2
              obtain ⟨hres, hout, hrest⟩ := h2
              refine ⟨b :: (csL ++ [cb]), ?_, hout.symm, ?_⟩
              · subst hrest
                simp [hrest']
              · refine hsum _ ?_
                constructor
                · intro _; exact hz
                · intro _; exact ⟨msgs, hres.symm⟩
            · rw [if_neg hz] at h2
              simp only [Option.some.injEq, Prod.mk.injEq] at h2
              obtain ⟨hres, hout, hrest⟩ := h2
              refine ⟨b :: (csL ++ [cb]), ?_, hout.symm, ?_⟩
              · subst hrest
                simp [hrest']
              · refine hsum _ ?_
                constructor
                · intro hm
                  obtain ⟨m, hm⟩ := hm
                  rw [← hres] at hm
                  exact absurd hm (by simp)
                · intro hcontra; exact absurd hcontra hz
        · cases hV : readValue c2 [] rest2 with
          | none => simp [frameLoop, hL, hlab, hV] at h
          | some trv =>
            obtain ⟨c3, value, rest3⟩ := trv
            obtain ⟨csV, hrest2, hc3⟩ := readValue_spec rest2 c2 [] c3 value rest3 hV
            have hrec : frameLoop fuel c3 (insertMsg msgs label value) rest3 =
                some (res, chkOut, rest) := by
              simpa [frameLoop, hL, hlab, hV] using h
            obtain ⟨cs', hsplit, hout, hiff⟩ :=
              ih c3 (insertMsg msgs label value) rest3 res chkOut rest hrec
            refine ⟨b :: (csL ++ (csV ++ cs')), ?_, hout, ?_⟩
            · simp [hrest', hrest2, hsplit, List.append_assoc]
            · rw [hiff]
              have : (c3 + cs'.sum) % 256 =
                  (chk + (b :: (csL ++ (csV ++ cs'))).sum) % 256 := by
                rw [hc3, hc2]
                simp only [checksumAdd, List.sum_cons, List.sum_append]
                omega
              rw [this]

end VeDirect

/-- The VE-Direct frame of the repository's parser test, ending in checksum
byte 0xd8. -/
def VeDirect.veTestFrame : List Nat :=
  [13, 10, 80, 73, 68, 9, 48, 120, 50, 48, 51, 13, 10, 86, 9, 50, 54, 50, 48, 49,
   13, 10, 73, 9, 48, 13, 10, 80, 9, 48, 13, 10, 67, 69, 9, 48, 13, 10, 83, 79, 67,
   9, 49, 48, 48, 48, 13, 10, 84, 84, 71, 9, 45, 49, 13, 10, 65, 108, 97, 114, 109,
   9, 79, 70, 70, 13, 10, 82, 101, 108, 97, 121, 9, 79, 70, 70, 13, 10, 65, 82, 9,
   48, 13, 10, 66, 77, 86, 9, 55, 48, 48, 13, 10, 70, 87, 9, 48, 51, 48, 55, 13, 10,
   67, 104, 101, 99, 107, 115, 117, 109, 9, 216]

/-- The frame map collected from veTestFrame. -/
def VeDirect.veTestMsgs : VeDirect.Msgs :=
  [([80, 73, 68], [48, 120, 50, 48, 51]), ([86], [50, 54, 50, 48, 49]),
   ([73], [48]), ([80], [48]), ([67, 69], [48]), ([83, 79, 67], [49, 48, 48, 48]),
   ([84, 84, 71], [45, 49]), ([65, 108, 97, 114, 109], [79, 70, 70]),
   ([82, 101, 108, 97, 121], [79, 70, 70]), ([65, 82], [48]),
   ([66, 77, 86], [55, 48, 48]), ([70, 87], [48, 51, 48, 55])]

/-- Claim C1: whenever run_once (entered with the cleared checksum
accumulator it always starts from) reaches a frame decision, the consumed
stream splits into CR-free scanned garbage, the leading CR, and the frame
bytes through the checksum byte; the result is Ok with the frame map exactly
when the modular-256 sum of the bytes from that CR through the checksum byte
is zero; on a mismatch the result is Err carrying no entries, the checksum
accumulator is left cleared, and read_next continues by scanning the
remaining stream for the next CR (one unfolding step of its loop). -/
theorem VeDirect.run_once_checksum_spec (bytes : List Nat)
    (res : Except Unit VeDirect.Msgs) (chkOut : Nat) (rest : List Nat)
    (h : VeDirect.run_once 0 bytes = some (res, chkOut, rest)) :
    ∃ pre frame, bytes = pre ++ 13 :: (frame ++ rest) ∧ (∀ b ∈ pre, b ≠ 13) ∧
      ((∃ m, res = .ok m) ↔ (13 + frame.sum) % 256 = 0) ∧
      chkOut = 0 ∧
      (res = .error () → ∀ fuel, VeDirect.readNextAux (fuel + 1) bytes =
        VeDirect.readNextAux fuel rest) := by
  unfold VeDirect.run_once at h
  cases hS : VeDirect.scanForCR 0 bytes with
  | none => rw [hS] at h; simp at h
  | some pr =>
    obtain ⟨c0, restCR⟩ := pr
    rw [hS] at h
    obtain ⟨hc0, pre, hsplit, hpre⟩ := VeDirect.scanForCR_zero_spec bytes c0 restCR hS
    subst hc0
    obtain ⟨frame, hframe, hout, hiff⟩ :=
      VeDirect.frameLoop_spec (restCR.length + 1) (VeDirect.checksumAdd 0 13) []
        restCR res chkOut rest h
    refine ⟨pre, frame, ?_, hpre, ?_, hout, ?_⟩
    · rw [hsplit, hframe]
    · rw [hiff]
      have h13 : (VeDirect.checksumAdd 0 13 + frame.sum) % 256 = (13 + frame.sum) % 256 := by
        norm_num [VeDirect.checksumAdd]
      rw [h13]
    · intro hres fuel
      have hro : VeDirect.run_once 0 bytes = some (res, chkOut, rest) := by
        unfold VeDirect.run_once
        rw [hS]
        exact h
      rw [hres] at hro
      simp [VeDirect.readNextAux, hro]

set_option maxRecDepth 40000 in
/-- Claim C1 witness: the repository's test frame (checksum byte 0xd8, total
modular sum zero) is accepted and splits as one scanned-garbage-free frame. -/
theorem VeDirect.run_once_checksum_spec_witness :
    ∃ pre frame,
      VeDirect.veTestFrame = pre ++ 13 :: (frame ++ ([] : List Nat)) ∧
      (∀ b ∈ pre, b ≠ 13) ∧
      ((∃ m, (Except.ok VeDirect.veTestMsgs : Except Unit VeDirect.Msgs) = .ok m) ↔
        (13 + frame.sum) % 256 = 0) ∧
      (0 : Nat) = 0 ∧
      ((Except.ok VeDirect.veTestMsgs : Except Unit VeDirect.Msgs) = .error () →
        ∀ fuel, VeDirect.readNextAux (fuel + 1) VeDirect.veTestFrame =
          VeDirect.readNextAux fuel []) :=
  VeDirect.run_once_checksum_spec VeDirect.veTestFrame
    (Except.ok VeDirect.veTestMsgs) 0 [] (by rfl)
